import Mathlib

/-!
Shallow embedding of the sipwise-backup core in Lean 4.

Covered source components:
- the backup-filename codec of storage.py (generate_backup_name,
  parse_backup_name, the local listing filter);
- the retention and cleanup policy engine of scheduler.py
  (apply_retention_policy, apply_cleanup_policy);
- the scheduler reboot guard, reboot persistence and startup
  pending-notification handling of scheduler.py (run, perform_reboot);
- the encryption-key patcher and restore orchestration of restore.py
  (extract_key, restore_key_into_constants, run_restore).

Modelling conventions: Python strings are lists of characters or Lean
strings; Python None-able returns are Option; Python exceptions are
Except or Option; side effects (state-file writes, reboot commands,
notifications, deletions) are explicit event traces or oracle functions;
naive local datetimes used by the policy engine are linearised to minutes
since a midnight epoch, so that the calendar day of a time t is t / 1440
and subtracting timedelta(days = k) subtracts k * 1440.
-/

namespace SipwiseBackup

/-! ## Backup-filename codec (storage.py) -/

/-- Characters matched by the CPython re module backslash-s class,
restricted to ASCII; used by the strptime model below. -/
def pyWsChar (c : Char) : Bool :=
  c = ' ' || c = '\t' || c = '\n' || c = '\x0b' || c = '\x0c' || c = '\r'

/-- Decimal value of a digit token, as int() computes it on the groups
captured by the strptime regular expression. -/
def digitVal (s : List Char) : Nat :=
  s.foldl (fun a c => a * 10 + (c.toNat - 48)) 0

/-- Nonempty string of ASCII decimal digits. -/
def allDigits (s : List Char) : Bool :=
  !s.isEmpty && s.all Char.isDigit

/-- Naive Python datetime at minute precision, as produced by
datetime.strptime(..., "%Y-%m-%d %H:%M"). -/
structure PyDateTime where
  year : Nat
  month : Nat
  day : Nat
  hour : Nat
  minute : Nat
deriving DecidableEq, Repr

/-- Gregorian leap-year rule used by the datetime module. -/
def isLeapYear (y : Nat) : Bool :=
  y % 4 = 0 && (!(y % 100 = 0) || y % 400 = 0)

/-- Length of a month, as validated by the datetime constructor. -/
def daysInMonth (y m : Nat) : Nat :=
  if m = 2 then (if isLeapYear y then 29 else 28)
  else if m = 4 || m = 6 || m = 9 || m = 11 then 30
  else 31

/-- Model of datetime.strptime on the string built by parse_backup_name,
f-string year-month-day hour:minute against format "%Y-%m-%d %H:%M",
specialised to tokens that contain no hyphen (they come from a split on
the hyphen). The CPython directive patterns are: %Y exactly four digits,
%m one or two digits valued 1..12, %d one or two digits valued 1..31,
%H one or two digits valued 0..23, %M one or two digits valued 0..59;
the literal space of the format matches a nonempty whitespace run, which
additionally absorbs trailing whitespace of the day token and leading
whitespace of the hour token; the final datetime constructor requires
year at least 1 and the day to fit the month. Any other input raises
ValueError, modelled as none. -/
def strptimeYMDHM (y mo d h mi : List Char) : Option PyDateTime :=
  let dCore := d.takeWhile Char.isDigit
  let dRest := d.dropWhile Char.isDigit
  let hCore := h.dropWhile (fun c => pyWsChar c)
  if y.length = 4 ∧ y.all Char.isDigit = true
     ∧ allDigits mo = true ∧ mo.length ≤ 2 ∧ 1 ≤ digitVal mo ∧ digitVal mo ≤ 12
     ∧ allDigits dCore = true ∧ dCore.length ≤ 2 ∧ 1 ≤ digitVal dCore ∧ digitVal dCore ≤ 31
     ∧ dRest.all (fun c => pyWsChar c) = true
     ∧ allDigits hCore = true ∧ hCore.length ≤ 2 ∧ digitVal hCore ≤ 23
     ∧ allDigits mi = true ∧ mi.length ≤ 2 ∧ digitVal mi ≤ 59
  then
    if 1 ≤ digitVal y ∧ digitVal dCore ≤ daysInMonth (digitVal y) (digitVal mo)
    then some ⟨digitVal y, digitVal mo, digitVal dCore, digitVal hCore, digitVal mi⟩
    else none
  else none

/-- Python str.split on a single separator character: every occurrence
splits, empty segments are kept, and the empty string yields one empty
segment. -/
def splitOnChar (sep : Char) : List Char → List (List Char)
  | [] => [[]]
  | c :: rest =>
    match splitOnChar sep rest with
    | [] => [[]]
    | g :: gs => if c = sep then [] :: g :: gs else (c :: g) :: gs

/-- Root part of os.path.splitext: cut at the last dot, provided some
character strictly before that dot is not itself a dot (so names made of
leading dots keep their dots). -/
def splitextRoot (s : List Char) : List Char :=
  let rev := s.reverse
  let ext := rev.takeWhile (fun c => ¬ c = '.')
  if ext.length = rev.length then s
  else
    let preRev := rev.drop (ext.length + 1)
    if preRev.any (fun c => ¬ c = '.') then preRev.reverse else s

/-- Python "-".join on a list of segments. -/
def joinHyphen (l : List (List Char)) : List Char :=
  List.intercalate ['-'] l

/-- Decoded backup metadata, the dictionary built by parse_backup_name. -/
structure BackupMeta where
  serverName : List Char
  instanceType : List Char
  btype : List Char
  dt : PyDateTime
  filename : List Char
deriving DecidableEq, Repr

/-- StorageManager.parse_backup_name (storage.py lines 149-217): strip the
extension, split on hyphens, require at least six segments, detect the
new layout by the literal token auto or manual at the fifth position from
the end (only possible with at least seven segments), recover server name
and instance type from the remaining identity segments, split the
minute-day token on its underscore, and parse the four time tokens with
strptime; every failure (including any exception) yields none. -/
def parse_backup_name (filename : List Char) : Option BackupMeta :=
  let name := splitextRoot filename
  let parts := splitOnChar '-' name
  if parts.length < 6 then none
  else
    let newFormat : Bool :=
      decide (7 ≤ parts.length) &&
        (match parts.get? (parts.length - 5) with
         | some t => t = "auto".data || t = "manual".data
         | none => false)
    let backupType : List Char :=
      if newFormat then (parts.get? (parts.length - 5)).getD "unknown".data
      else "unknown".data
    let serverInstanceParts :=
      if newFormat then parts.take (parts.length - 5) else parts.take (parts.length - 4)
    let instanceType := (serverInstanceParts.getLast?).getD "unknown".data
    let serverName :=
      if 2 ≤ serverInstanceParts.length then joinHyphen serverInstanceParts.dropLast
      else "unknown".data
    match parts.drop (parts.length - 4) with
    | [hh, md, mo, yy] =>
      match splitOnChar '_' md with
      | [mi, dd] =>
        match strptimeYMDHM yy mo dd hh mi with
        | some dt => some ⟨serverName, instanceType, backupType, dt, filename⟩
        | none => none
      | _ => none
    | _ => none

/-- Single decimal digit character. -/
def digitChar (n : Nat) : Char := Char.ofNat (48 + n)

/-- Fuel-driven most-significant-first decimal digit expansion. -/
def natDigitsFuel : Nat → Nat → List Char
  | 0, _ => []
  | fuel + 1, n => if n < 10 then [digitChar n] else natDigitsFuel fuel (n / 10) ++ [digitChar (n % 10)]

/-- Decimal digit string of a natural number; glibc strftime renders %Y
this way, without padding. -/
def natDigits (n : Nat) : List Char := natDigitsFuel (n + 1) n

/-- strftime zero-padded two-digit field (%H, %M, %d, %m). -/
def pad2 (n : Nat) : List Char := if n < 10 then '0' :: natDigits n else natDigits n

/-- Body of a generated backup filename before the extension:
server-instance-type followed by strftime("%H-%M_%d-%m-%Y"). -/
def encode_body (serverName instanceType backupType : List Char)
    (now : PyDateTime) : List Char :=
  serverName ++ '-' :: instanceType ++ '-' :: backupType ++ '-' ::
    (pad2 now.hour ++ '-' :: (pad2 now.minute ++ '_' :: pad2 now.day) ++ '-' ::
      pad2 now.month ++ '-' :: natDigits now.year)

/-- StorageManager.generate_backup_name (storage.py lines 128-147): the
f-string server-instance-type-time with time rendered by
strftime("%H-%M_%d-%m-%Y"), followed by the extension. -/
def generate_backup_name (serverName instanceType backupType : List Char)
    (now : PyDateTime) (extension : List Char) : List Char :=
  encode_body serverName instanceType backupType now ++ extension

/-- Modelled from the spec: body of a legacy backup filename of the
naming contract, which omits the kind segment. -/
def legacy_body (serverName instanceType : List Char) (ts : PyDateTime) : List Char :=
  serverName ++ '-' :: instanceType ++ '-' ::
    (pad2 ts.hour ++ '-' :: (pad2 ts.minute ++ '_' :: pad2 ts.day) ++ '-' ::
      pad2 ts.month ++ '-' :: natDigits ts.year)

/-- Modelled from the spec: the legacy backup filename layout of the
naming contract, which omits the kind segment; the generator producing it
belongs to an earlier version of the repository and is not under src. -/
def legacy_backup_name (serverName instanceType : List Char)
    (ts : PyDateTime) (extension : List Char) : List Char :=
  legacy_body serverName instanceType ts ++ extension

/-- Calendar validity of a decoded timestamp, the ranges enforced by the
strptime patterns and the datetime constructor. -/
def validStamp (dt : PyDateTime) : Prop :=
  1 ≤ dt.year ∧ dt.year ≤ 9999 ∧ 1 ≤ dt.month ∧ dt.month ≤ 12 ∧
    1 ≤ dt.day ∧ dt.day ≤ daysInMonth dt.year dt.month ∧
    dt.hour ≤ 23 ∧ dt.minute ≤ 59

/-- Python filename.endswith on the zip extension. -/
def endsWithZip (s : List Char) : Bool :=
  List.isSuffixOf ".zip".data s

/-- Linear key for comparing the decoded datetimes (the decoder only
produces fields within calendar ranges, where this key agrees with the
lexicographic datetime comparison used by the Python sort). -/
def dtKey (d : PyDateTime) : Nat :=
  (((d.year * 13 + d.month) * 32 + d.day) * 24 + d.hour) * 60 + d.minute

/-- Newest-first comparison on decoded metadata. -/
def metaDescLe (a b : BackupMeta) : Prop := dtKey b.dt ≤ dtKey a.dt

instance : DecidableRel metaDescLe := fun a b => Nat.decLe (dtKey b.dt) (dtKey a.dt)

/-- StorageManager._list_backups_local (storage.py lines 354-378): keep
the names ending in .zip whose parse succeeds, then sort newest first. -/
def list_backups_local (files : List (List Char)) : List BackupMeta :=
  List.insertionSort metaDescLe ((files.filter endsWithZip).filterMap parse_backup_name)

/-! ## Retention and cleanup policy engine (scheduler.py) -/

/-- Backup dictionary as consumed by the policy engine; the datetime is
linearised to minutes since a midnight epoch. -/
structure Artifact where
  serverName : String
  instanceType : String
  btype : String
  datetime : Nat
  filename : String
deriving DecidableEq, Repr

/-- Accumulator of a policy pass: running deleted counter, successfully
deleted artifacts in order, and every artifact on which delete_backup was
invoked, in order. -/
structure PolicyAcc where
  count : Nat
  deleted : List Artifact
  attempted : List Artifact
deriving DecidableEq, Repr

/-- Result of a policy function: the Python return value (none models the
bare return statements, some n models return n), plus the deletion
record. -/
structure PolicyOutcome where
  ret : Option Nat
  deleted : List Artifact
  attempted : List Artifact
deriving DecidableEq, Repr

/-- Body of the retention loop for one artifact: manual artifacts are
skipped, artifacts at or after the cutoff are kept, otherwise
delete_backup is attempted (the oracle deleteOk tells which deletions
succeed) and only successes increment the counter. -/
def retentionStep (cutoff : Nat) (deleteOk : Artifact → Bool)
    (acc : PolicyAcc) (b : Artifact) : PolicyAcc :=
  if b.btype = "manual" then acc
  else if b.datetime < cutoff then
    (if deleteOk b then ⟨acc.count + 1, acc.deleted ++ [b], acc.attempted ++ [b]⟩
     else ⟨acc.count, acc.deleted, acc.attempted ++ [b]⟩)
  else acc

/-- BackupScheduler.apply_retention_policy (scheduler.py lines 214-291):
empty listing and no-matching-server both take a bare return (value
none); otherwise the cutoff is now minus retentionDays days and the loop
above runs over the artifacts whose server name matches, returning the
number of successful deletions. -/
def apply_retention_policy (backups : List Artifact) (currentServerName : String)
    (now retentionDays : Nat) (deleteOk : Artifact → Bool) : PolicyOutcome :=
  if backups.isEmpty then ⟨none, [], []⟩
  else
    let matching := backups.filter (fun b => decide (b.serverName = currentServerName))
    if matching.isEmpty then ⟨none, [], []⟩
    else
      let cutoff := now - retentionDays * 1440
      let r := matching.foldl (retentionStep cutoff deleteOk) ⟨0, [], []⟩
      ⟨some r.count, r.deleted, r.attempted⟩

/-- Calendar day of an artifact, the strftime year-month-day key under
the minute linearisation. -/
def dayKey (b : Artifact) : Nat := b.datetime / 1440

/-- Append an artifact to the group holding key k of an insertion-ordered
association list, creating the group at the end when absent; this is the
dictionary update of the grouping loop. -/
def addToGroups (k : Nat) (b : Artifact) :
    List (Nat × List Artifact) → List (Nat × List Artifact)
  | [] => [(k, [b])]
  | (k0, g) :: rest =>
    if k0 = k then (k0, g ++ [b]) :: rest else (k0, g) :: addToGroups k b rest

/-- Grouping of artifacts by calendar day in first-occurrence order, as
built by the backups_by_day dictionary. -/
def groupsByDay (l : List Artifact) : List (Nat × List Artifact) :=
  l.foldl (fun gs b => addToGroups (dayKey b) b gs) []

/-- Newest-first order on artifacts, the key of the Python descending
sort. -/
def dtDescLe (a b : Artifact) : Prop := b.datetime ≤ a.datetime

instance : DecidableRel dtDescLe := fun a b => Nat.decLe b.datetime a.datetime

/-- Deletion loop over the duplicates of one day. -/
def cleanupInner (deleteOk : Artifact → Bool) (acc : PolicyAcc)
    (toDel : List Artifact) : PolicyAcc :=
  toDel.foldl
    (fun acc b =>
      if deleteOk b then ⟨acc.count + 1, acc.deleted ++ [b], acc.attempted ++ [b]⟩
      else ⟨acc.count, acc.deleted, acc.attempted ++ [b]⟩)
    acc

/-- One day group of the cleanup loop: the current day is skipped whole,
days with at most one artifact are kept whole, and otherwise everything
but the newest artifact (the head after a stable descending sort) is
deleted. -/
def cleanupGroupStep (todayKey : Nat) (deleteOk : Artifact → Bool)
    (acc : PolicyAcc) (g : Nat × List Artifact) : PolicyAcc :=
  if g.1 = todayKey then acc
  else if g.2.length ≤ 1 then acc
  else cleanupInner deleteOk acc ((List.insertionSort dtDescLe g.2).drop 1)

/-- BackupScheduler.apply_cleanup_policy (scheduler.py lines 293-411):
no-op returning 0 when disabled or when the mode is not last_per_day;
otherwise filters to the current server name, drops manual artifacts,
groups the rest by calendar day and runs the per-day step above,
returning the number of successful deletions. -/
def apply_cleanup_policy (cleanupEnabled : Bool) (cleanupMode : String)
    (backups : List Artifact) (currentServerName : String) (todayKey : Nat)
    (deleteOk : Artifact → Bool) : PolicyOutcome :=
  if ¬ cleanupEnabled then ⟨some 0, [], []⟩
  else if ¬ cleanupMode = "last_per_day" then ⟨some 0, [], []⟩
  else if backups.isEmpty then ⟨some 0, [], []⟩
  else
    let matching := backups.filter (fun b => decide (b.serverName = currentServerName))
    if matching.isEmpty then ⟨some 0, [], []⟩
    else
      let autoBackups := matching.filter (fun b => decide (¬ b.btype = "manual"))
      if autoBackups.isEmpty then ⟨some 0, [], []⟩
      else
        let r := (groupsByDay autoBackups).foldl (cleanupGroupStep todayKey deleteOk) ⟨0, [], []⟩
        ⟨some r.count, r.deleted, r.attempted⟩

/-- Artifact relevant to the policies: produced by the current server and
not manual. -/
def relevantTo (sn : String) (b : Artifact) : Prop :=
  b.serverName = sn ∧ ¬ b.btype = "manual"

instance (sn : String) (b : Artifact) : Decidable (relevantTo sn b) :=
  inferInstanceAs (Decidable (And _ _))

/-- Deletion oracle under which every delete_backup call succeeds. -/
def alwaysDelete : Artifact → Bool := fun _ => true

/-- Artifacts the cleanup loop deletes out of one day group: none for the
current day or a singleton day, otherwise everything after the newest. -/
def groupDeletions (todayKey : Nat) (g : Nat × List Artifact) : List Artifact :=
  if g.1 = todayKey then []
  else if g.2.length ≤ 1 then []
  else (List.insertionSort dtDescLe g.2).drop 1

instance : IsTotal Artifact dtDescLe :=
  ⟨fun a b => (Nat.le_total b.datetime a.datetime).elim Or.inl Or.inr⟩

instance : IsTrans Artifact dtDescLe :=
  ⟨fun _ _ _ hab hbc => Nat.le_trans hbc hab⟩

/-! ## Scheduler reboot guard and startup recovery (scheduler.py) -/

/-- Durable scheduler state, the JSON document of scheduler_state.json;
each field is absent (none) until first written. -/
structure SchedPersist where
  lastBackupTime : Option Nat
  lastRebootMonth : Option String
  pendingRebootNotification : Option Nat
deriving DecidableEq, Repr

/-- Observable actions of the scheduler, in program order: a whole-state
overwrite of the state file, the invocation of the reboot command, the
deferred reboot-success notification (with the recorded reboot time), and
the reboot-failure notification. -/
inductive SchedEvent where
  | saveState (st : SchedPersist)
  | rebootCmd
  | notifyRebootSuccess (t : Nat)
  | notifyRebootFailure
deriving DecidableEq, Repr

/-- BackupScheduler.perform_reboot (scheduler.py lines 161-206): load the
state file, set pending_reboot_notification to the current time, save,
then locate and invoke the reboot command; a missing command or a failed
invocation sends the failure notification. cmdFound tells whether a
reboot executable exists, cmdOk whether invoking it succeeds. -/
def perform_reboot (now : Nat) (cmdFound cmdOk : Bool) (file : SchedPersist) :
    SchedPersist × List SchedEvent :=
  let st := { file with pendingRebootNotification := some now }
  if cmdFound then
    (st, SchedEvent.saveState st :: SchedEvent.rebootCmd ::
          (if cmdOk then [] else [SchedEvent.notifyRebootFailure]))
  else (st, [SchedEvent.saveState st, SchedEvent.notifyRebootFailure])

/-- Reboot-check portion of one tick of BackupScheduler.run (scheduler.py
lines 574-587): when automatic reboot is enabled, the schedule matches,
and the in-memory last_reboot_month differs from the current month token,
record the month in memory, persist last_backup_time and the new
last_reboot_month (preserving the rest of the loaded file), and call
perform_reboot. Returns the new in-memory month, the final persisted
file, and the event trace. -/
def rebootCheck (rebootEnabled shouldReboot : Bool) (currentMonthKey : String)
    (now : Nat) (cmdFound cmdOk : Bool) (lastRebootMonthMem : Option String)
    (lastBackupTime : Option Nat) (file : SchedPersist) :
    Option String × SchedPersist × List SchedEvent :=
  if rebootEnabled ∧ shouldReboot ∧ ¬ lastRebootMonthMem = some currentMonthKey then
    let st1 : SchedPersist :=
      { file with lastBackupTime := lastBackupTime, lastRebootMonth := some currentMonthKey }
    let r := perform_reboot now cmdFound cmdOk st1
    (some currentMonthKey, r.1, SchedEvent.saveState st1 :: r.2)
  else (lastRebootMonthMem, file, [])

/-- Startup pending-notification handling of BackupScheduler.run
(scheduler.py lines 483-499): when the loaded state carries a pending
reboot notification (a Python truthiness test, so a zero timestamp is
treated as unset), send the deferred success notification, drop the field
and save immediately. -/
def startupPendingCheck (file : SchedPersist) : SchedPersist × List SchedEvent :=
  match file.pendingRebootNotification with
  | some t =>
    if t = 0 then (file, [])
    else
      let st := { file with pendingRebootNotification := none }
      (st, [SchedEvent.notifyRebootSuccess t, SchedEvent.saveState st])
  | none => (file, [])

/-! ## Restore key patcher and orchestration (restore.py) -/

/-- Removal of trailing whitespace, the Python str.rstrip. -/
def rdropWs (l : List Char) : List Char :=
  List.rdropWhile (fun c => pyWsChar c) l

/-- Removal of leading and trailing whitespace, the Python str.strip. -/
def pyStripChars (l : List Char) : List Char :=
  rdropWs (l.dropWhile (fun c => pyWsChar c))

/-- Python str.strip on strings. -/
def pyStrip (s : String) : String := String.mk (pyStripChars s.data)

/-- Token accepted by the Python int() conversion applied to the captured
time fields: decimal digits once surrounding whitespace is stripped. -/
def numericToken (s : List Char) : Bool :=
  allDigits (pyStripChars s)

/-- Python str.rstrip on strings. -/
def pyRStrip (s : String) : String := String.mk (rdropWs s.data)

/-- Python str.startswith on the key prefix. -/
def startsWithKey (s : String) : Bool := List.isPrefixOf "key:".data s.data

/-- Value part of a checked key line: Python line.split with the key
prefix, second component, stripped; on a line that starts with the
prefix this is everything after the first four characters, stripped. -/
def keyRemainder (line : String) : String :=
  String.mk (pyStripChars (line.data.drop 4))

/-- Prefix of a list before the first occurrence of the key token, the
Python line.split with the key prefix, first component. -/
def takeBeforeKey : List Char → List Char
  | [] => []
  | c :: rest =>
    if List.isPrefixOf "key:".data (c :: rest) then []
    else c :: takeBeforeKey rest

/-- Indentation kept by the key rewrite: everything before the prefix. -/
def indentOf (s : String) : String := String.mk (takeBeforeKey s.data)

/-- Python lines[o - 1] for a one-based configured offset held as a
natural number: offset zero reaches index minus one, the last line. -/
def pyGetLine (lines : List String) (o : Nat) : Option String :=
  if o = 0 then lines.getLast? else lines.get? (o - 1)

/-- Python lines[o - 1] = v under the same indexing convention. -/
def pySetLine (lines : List String) (o : Nat) (v : String) : List String :=
  if o = 0 then lines.dropLast ++ [v] else lines.set (o - 1) v

/-- RestoreManager.extract_key (restore.py lines 213-240): open the
secrets file (none models FileNotFoundError), fail when the configured
line number exceeds the line count, strip the addressed line, require the
key prefix, and return the stripped remainder after the prefix. -/
def extract_key (constants : Option (List String)) (targetKeyLine : Nat) :
    Except String String :=
  match constants with
  | none => Except.error "Cannot open constants.yml"
  | some lines =>
    if lines.length < targetKeyLine then Except.error "constants.yml too short"
    else
      match pyGetLine lines targetKeyLine with
      | none => Except.error "IndexError"
      | some raw =>
        let line := pyStrip raw
        if startsWithKey line then Except.ok (keyRemainder line)
        else Except.error "line is not a key entry"

/-- RestoreManager.restore_key_into_constants (restore.py lines 254-291):
read and strip the staged key (none models a missing tempkey), read the
restored secrets file, address the configured line (an out-of-range index
raises IndexError), check the key prefix on the stripped line, and only
then rewrite that line, keeping the indentation before the prefix.
Returns the new file content; an error leaves the file unwritten. -/
def restore_key_into_constants (tempkey : Option String)
    (constants : Option (List String)) (targetKeyLine : Nat) :
    Except String (List String) :=
  match tempkey with
  | none => Except.error "Tempkey file missing"
  | some rawKey =>
    let key := pyStrip rawKey
    match constants with
    | none => Except.error "Restored constants.yml missing"
    | some lines =>
      match pyGetLine lines targetKeyLine with
      | none => Except.error "IndexError"
      | some raw =>
        let oldLine := pyRStrip raw
        if startsWithKey (pyStrip oldLine) then
          let indent := indentOf oldLine
          Except.ok (pySetLine lines targetKeyLine (indent ++ "key: " ++ key ++ "\n"))
        else Except.error "restored line is not a key entry"

/-- Secrets-file content after a restoration attempt: the new lines on
success, the untouched original on failure. -/
def restoreKeyFileAfter (tempkey : Option String) (lines : List String)
    (targetKeyLine : Nat) : List String :=
  match restore_key_into_constants tempkey (some lines) targetKeyLine with
  | Except.ok newLines => newLines
  | Except.error _ => lines

/-- Mutable world touched by a restore run: the live secrets file, the
live platform configuration tree and database (abstract version
counters), and the staging area (tempkey side-file and extraction
scratch). -/
structure RestoreWorld where
  constants : Option (List String)
  configTree : Nat
  database : Nat
  tempkey : Option String
  stagingExtracted : Bool
deriving DecidableEq, Repr

/-- Outcomes of the external collaborators consumed by run_restore. -/
structure RestoreEnv where
  downloadOk : Bool
  unzipOk : Bool
  backupHasNgcpConfig : Bool
  backupConstants : Option (List String)
  backupTree : Nat
  firewallPatchOk : Bool
  applyStage1Ok : Bool
  dumpPresent : Bool
  mysqlOk : Bool
  dumpDb : Nat
  failedDb : Nat
  applyStage2Ok : Bool
deriving DecidableEq, Repr

/-- Observable stages of a restore run. -/
inductive RestoreEvent where
  | download
  | extractArchive
  | replaceConfigTree
  | keyRestore
  | firewallPatch
  | applyCfg1
  | mysqlRestore
  | applyCfg2
  | cleanup
deriving DecidableEq, Repr

/-- StorageManager.clean_tmp: remove the staging directory, including the
tempkey side-file; live files are untouched. -/
def cleanTmp (w : RestoreWorld) : RestoreWorld :=
  { w with tempkey := none, stagingExtracted := false }

/-- Failure exit of run_restore: log, clean staging, return False. -/
def restoreFail (w : RestoreWorld) (evs : List RestoreEvent) :
    Bool × RestoreWorld × List RestoreEvent :=
  (false, cleanTmp w, evs ++ [RestoreEvent.cleanup])

/-- Stages of RestoreManager.run_restore after the key extraction
succeeded (or was skipped), restore.py lines 423-543: download, extract,
replace the platform configuration tree (requiring the ngcp-config
subtree), re-patch the preserved key (skipped when the extracted key was
empty, a Python truthiness test), optionally patch the firewall flag,
apply configuration, replace the database from the dump, apply
configuration again, clean staging and return True. Each failure aborts
the remaining stages through the failure exit. -/
def run_restore_rest (targetKeyLine : Nat) (preserveKey disableFirewall : Bool)
    (originalKey : Option String) (env : RestoreEnv) (w : RestoreWorld) :
    Bool × RestoreWorld × List RestoreEvent :=
  if ¬ env.downloadOk then restoreFail w [RestoreEvent.download]
  else
    let evs1 := [RestoreEvent.download]
    if ¬ env.unzipOk then restoreFail w (evs1 ++ [RestoreEvent.extractArchive])
    else
      let w2 := { w with stagingExtracted := true }
      let evs2 := evs1 ++ [RestoreEvent.extractArchive]
      if ¬ env.backupHasNgcpConfig then restoreFail w2 evs2
      else
        let w3 := { w2 with configTree := env.backupTree, constants := env.backupConstants }
        let evs3 := evs2 ++ [RestoreEvent.replaceConfigTree]
        let keyStage : Except String (RestoreWorld × List RestoreEvent) :=
          match originalKey with
          | some k =>
            if preserveKey ∧ ¬ k = "" then
              match restore_key_into_constants w3.tempkey w3.constants targetKeyLine with
              | Except.ok newLines =>
                Except.ok ({ w3 with constants := some newLines }, evs3 ++ [RestoreEvent.keyRestore])
              | Except.error e => Except.error e
            else Except.ok (w3, evs3)
          | none => Except.ok (w3, evs3)
        match keyStage with
        | Except.error _ => restoreFail w3 evs3
        | Except.ok (w4, evs4) =>
          if disableFirewall ∧ ¬ env.firewallPatchOk then restoreFail w4 evs4
          else
            let evs5 := evs4 ++ (if disableFirewall then [RestoreEvent.firewallPatch] else [])
            if ¬ env.applyStage1Ok then restoreFail w4 (evs5 ++ [RestoreEvent.applyCfg1])
            else
              let evs6 := evs5 ++ [RestoreEvent.applyCfg1]
              if ¬ env.dumpPresent then restoreFail w4 evs6
              else if ¬ env.mysqlOk then
                restoreFail { w4 with database := env.failedDb } (evs6 ++ [RestoreEvent.mysqlRestore])
              else
                let w5 := { w4 with database := env.dumpDb }
                let evs7 := evs6 ++ [RestoreEvent.mysqlRestore]
                if ¬ env.applyStage2Ok then restoreFail w5 (evs7 ++ [RestoreEvent.applyCfg2])
                else
                  (true, cleanTmp w5, evs7 ++ [RestoreEvent.applyCfg2, RestoreEvent.cleanup])

/-- RestoreManager.run_restore (restore.py lines 386-563): with key
preservation requested, the very first stage extracts the current key
from the live secrets file and stages it; only afterwards are download,
extraction and the replacement stages attempted. Any raised stage lands
in the except handler, which cleans staging and returns False. -/
def run_restore (targetKeyLine : Nat) (preserveKey disableFirewall : Bool)
    (env : RestoreEnv) (w : RestoreWorld) : Bool × RestoreWorld × List RestoreEvent :=
  if preserveKey then
    match extract_key w.constants targetKeyLine with
    | Except.error _ => restoreFail w []
    | Except.ok k =>
      let w1 := { w with tempkey := some (k ++ "\n") }
      run_restore_rest targetKeyLine preserveKey disableFirewall (some k) env w1
  else run_restore_rest targetKeyLine preserveKey disableFirewall none env w

/-! ## Theorems -/

/-- C3: apply_retention_policy is documented and annotated to return the
count of artifacts actually removed, but on an empty artifact listing and
on a listing with no artifact of the current server it takes a bare
return, producing the Python value None instead of the count 0; the
scheduler then adds that value to the cleanup count and crashes the tick.
This theorem evaluates the model at both failing inputs. -/
theorem retention_returns_none_on_empty_listing :
    (apply_retention_policy [] "sp1" 518400 30 alwaysDelete).ret = none ∧
    (apply_retention_policy [⟨"other", "master", "auto", 1440, "o.zip"⟩]
        "sp1" 518400 30 alwaysDelete).ret = none ∧
    ¬ (apply_retention_policy [] "sp1" 518400 30 alwaysDelete).ret = some 0 := by
  refine ⟨rfl, by decide, by decide⟩

/-- Helper: dropping leading whitespace commutes with dropping trailing
whitespace. -/
theorem dropWhile_rdropWs_comm (l : List Char) :
    (rdropWs l).dropWhile (fun c => pyWsChar c) =
      rdropWs (l.dropWhile (fun c => pyWsChar c)) := by
  simp only [rdropWs]
  induction l using List.reverseRecOn with
  | nil => simp
  | append_singleton l x ih =>
    by_cases hx : pyWsChar x = true
    · rw [List.rdropWhile_concat_pos _ _ _ hx, List.dropWhile_append]
      by_cases hemp : (l.dropWhile (fun c => pyWsChar c)).isEmpty = true
      · rw [if_pos hemp, ih, List.isEmpty_iff.mp hemp]
        simp [List.dropWhile_cons, hx]
      · rw [if_neg hemp, List.rdropWhile_concat_pos _ _ _ hx, ih]
    · rw [List.rdropWhile_concat_neg _ _ _ hx]
      simp only [List.dropWhile_append]
      by_cases hemp : (l.dropWhile (fun c => pyWsChar c)).isEmpty = true
      · rw [if_pos hemp]
        simp [List.dropWhile_cons, hx, List.rdropWhile_singleton]
      · rw [if_neg hemp, List.rdropWhile_concat_neg _ _ _ hx]

/-- Helper: stripping after a right strip is plain stripping. -/
theorem pyStrip_pyRStrip (s : String) : pyStrip (pyRStrip s) = pyStrip s := by
  simp only [pyStrip, pyRStrip, pyStripChars]
  rw [dropWhile_rdropWs_comm]
  simp only [rdropWs]
  rw [List.rdropWhile_idempotent]

/-- Helper: with a one-based offset, the Python line addressing is plain
zero-based list indexing at offset minus one. -/
theorem pyGetLine_pos (lines : List String) (o : Nat) (ho : 1 ≤ o) :
    pyGetLine lines o = lines.get? (o - 1) := by
  unfold pyGetLine
  rw [if_neg (by omega)]

/-- C4: for a one-based key-line offset, if the offset is beyond the end
of the secrets file or the addressed line does not start with the key
prefix after stripping, then extract_key fails and
restore_key_into_constants fails for every staged key, leaving the file
content unchanged; moreover restore_key_into_constants only ever produces
a new file when the prefix check on the addressed line succeeded. -/
theorem key_patch_fails_closed :
    ∀ (lines : List String) (o : Nat), 1 ≤ o →
    (lines.length < o ∨
      ∃ raw, lines.get? (o - 1) = some raw ∧ ¬ startsWithKey (pyStrip raw) = true) →
    ((∃ e, extract_key (some lines) o = Except.error e) ∧
     (∀ tk, (∃ e, restore_key_into_constants tk (some lines) o = Except.error e) ∧
            restoreKeyFileAfter tk lines o = lines)) ∧
    (∀ (tk : Option String) (lines2 newLines : List String) (o2 : Nat), 1 ≤ o2 →
      restore_key_into_constants tk (some lines2) o2 = Except.ok newLines →
      ∃ raw, lines2.get? (o2 - 1) = some raw ∧ startsWithKey (pyStrip raw) = true) := by
  intro lines o ho h
  constructor
  · have hex : ∃ e, extract_key (some lines) o = Except.error e := by
      rcases h with h | ⟨raw, hraw, hpre⟩
      · refine ⟨"constants.yml too short", ?_⟩
        simp only [extract_key]
        rw [if_pos h]
      · have hlen : ¬ lines.length < o := by
          obtain ⟨hlt, -⟩ := List.get?_eq_some.mp hraw
          omega
        refine ⟨"line is not a key entry", ?_⟩
        simp only [extract_key]
        rw [if_neg hlen, pyGetLine_pos lines o ho, hraw]
        simp [hpre]
    refine ⟨hex, ?_⟩
    intro tk
    have hres : ∃ e, restore_key_into_constants tk (some lines) o = Except.error e := by
      cases tk with
      | none => exact ⟨"Tempkey file missing", rfl⟩
      | some rawKey =>
        rcases h with h | ⟨raw, hraw, hpre⟩
        · refine ⟨"IndexError", ?_⟩
          simp only [restore_key_into_constants]
          rw [pyGetLine_pos lines o ho, List.get?_eq_none.mpr (by omega)]
        · refine ⟨"restored line is not a key entry", ?_⟩
          simp only [restore_key_into_constants]
          rw [pyGetLine_pos lines o ho, hraw]
          have hps : startsWithKey (pyStrip (pyRStrip raw)) = false := by
            rw [pyStrip_pyRStrip]
            simpa using hpre
          simp [hps]
    refine ⟨hres, ?_⟩
    unfold restoreKeyFileAfter
    rcases hres with ⟨e, he⟩
    rw [he]
  · intro tk lines2 newLines o2 ho2 hok
    cases tk with
    | none => simp [restore_key_into_constants] at hok
    | some rawKey =>
      simp only [restore_key_into_constants] at hok
      rw [pyGetLine_pos lines2 o2 ho2] at hok
      cases hraw : lines2.get? (o2 - 1) with
      | none => rw [hraw] at hok; exact absurd hok (by simp)
      | some raw =>
        rw [hraw] at hok
        refine ⟨raw, rfl, ?_⟩
        by_contra hpre
        have hps : startsWithKey (pyStrip (pyRStrip raw)) = false := by
          rw [pyStrip_pyRStrip]
          simpa using hpre
        simp [hps] at hok

/-- C4 witness: a two-line file whose second line is not a key entry
makes both stages fail at offset 2 and leaves the file unchanged. -/
theorem key_patch_fails_closed_witness :
    (∃ e, extract_key (some ["a", "b"]) 2 = Except.error e) ∧
    restoreKeyFileAfter (some "k1") ["a", "b"] 2 = ["a", "b"] := by
  have h := key_patch_fails_closed ["a", "b"] 2 (by decide)
    (Or.inr ⟨"b", by decide, by decide⟩)
  exact ⟨h.1.1, (h.1.2 (some "k1")).2⟩

/-- C10: with key preservation requested, run_restore runs the key
extraction stage first; when it fails, the run returns False after only
cleaning staging, so the live secrets file, platform configuration tree
and database are untouched and no download, tree replacement or database
restore event ever happens. -/
theorem restore_aborts_unmodified_on_key_failure :
    ∀ (o : Nat) (df : Bool) (env : RestoreEnv) (w : RestoreWorld) (e : String),
    extract_key w.constants o = Except.error e →
    run_restore o true df env w = (false, cleanTmp w, [RestoreEvent.cleanup]) ∧
    (cleanTmp w).constants = w.constants ∧
    (cleanTmp w).configTree = w.configTree ∧
    (cleanTmp w).database = w.database ∧
    ¬ RestoreEvent.download ∈ (run_restore o true df env w).2.2 ∧
    ¬ RestoreEvent.replaceConfigTree ∈ (run_restore o true df env w).2.2 ∧
    ¬ RestoreEvent.mysqlRestore ∈ (run_restore o true df env w).2.2 := by
  intro o df env w e he
  have hrun : run_restore o true df env w = (false, cleanTmp w, [RestoreEvent.cleanup]) := by
    unfold run_restore
    rw [if_pos rfl, he]
    rfl
  refine ⟨hrun, rfl, rfl, rfl, ?_, ?_, ?_⟩ <;> rw [hrun] <;> simp

/-- C10 witness: a world whose secrets file lacks the key prefix at the
configured line aborts the restore without touching the live state. -/
theorem restore_aborts_unmodified_on_key_failure_witness :
    run_restore 1 true false
        ⟨true, true, true, some ["x"], 7, true, true, true, true, 9, 9, true⟩
        ⟨some ["nope"], 3,4, none, false⟩
      = (false, cleanTmp ⟨some ["nope"], 3, 4, none, false⟩, [RestoreEvent.cleanup]) := by
  exact (restore_aborts_unmodified_on_key_failure 1 false
    ⟨true, true, true, some ["x"], 7, true, true, true, true, 9, 9, true⟩
    ⟨some ["nope"], 3, 4, none, false⟩
    "line is not a key entry" rfl).1

/-- C5: the reboot check issues the reboot command only when the current
month token differs from the recorded last reboot month, and every
issued command is preceded in the trace by a state save carrying both
lastRebootMonth equal to the current month and
pendingRebootNotification equal to now; consequently a second evaluation
of the check in the same month, after the first one recorded the month,
produces no event at all, in particular no second reboot. -/
theorem reboot_guard_once_per_month :
    ∀ (en sr : Bool) (month : String) (now : Nat) (cf co : Bool)
      (mem : Option String) (lbt : Option Nat) (file : SchedPersist),
    (SchedEvent.rebootCmd ∈ (rebootCheck en sr month now cf co mem lbt file).2.2 →
      ¬ mem = some month ∧
      ∃ pre suf st,
        (rebootCheck en sr month now cf co mem lbt file).2.2
          = pre ++ SchedEvent.saveState st :: suf ∧
        st.lastRebootMonth = some month ∧
        st.pendingRebootNotification = some now ∧
        SchedEvent.rebootCmd ∈ suf) ∧
    (en = true → sr = true → ¬ mem = some month →
      ∀ (en2 sr2 : Bool) (now2 : Nat) (cf2 co2 : Bool) (lbt2 : Option Nat),
        rebootCheck en2 sr2 month now2 cf2 co2
            (rebootCheck en sr month now cf co mem lbt file).1
            lbt2 (rebootCheck en sr month now cf co mem lbt file).2.1
          = ((rebootCheck en sr month now cf co mem lbt file).1,
             (rebootCheck en sr month now cf co mem lbt file).2.1, [])) := by
  intro en sr month now cf co mem lbt file
  by_cases hcond : en = true ∧ sr = true ∧ ¬ mem = some month
  · have hred : rebootCheck en sr month now cf co mem lbt file
        = (some month,
           (perform_reboot now cf co ⟨lbt, some month, file.pendingRebootNotification⟩).1,
           SchedEvent.saveState ⟨lbt, some month, file.pendingRebootNotification⟩ ::
             (perform_reboot now cf co ⟨lbt, some month, file.pendingRebootNotification⟩).2) := by
      simp only [rebootCheck, if_pos hcond]
    constructor
    · intro hmem
      refine ⟨hcond.2.2, ?_⟩
      rw [hred]
      cases hcf : cf with
      | false =>
        exfalso
        rw [hred] at hmem
        simp [perform_reboot, hcf] at hmem
      | true =>
        simp only [perform_reboot, hcf, if_pos]
        exact ⟨[SchedEvent.saveState ⟨lbt, some month, file.pendingRebootNotification⟩],
               SchedEvent.rebootCmd ::
                 (if co = true then [] else [SchedEvent.notifyRebootFailure]),
               ⟨lbt, some month, some now⟩,
               rfl, rfl, rfl, List.mem_cons_self _ _⟩
    · intro _ _ _ en2 sr2 now2 cf2 co2 lbt2
      rw [hred]
      simp only [rebootCheck]
      rw [if_neg (by simp)]
  · constructor
    · intro hmem
      exfalso
      have hempty : (rebootCheck en sr month now cf co mem lbt file).2.2 = [] := by
        simp only [rebootCheck, if_neg hcond]
      rw [hempty] at hmem
      simp at hmem
    · intro h1 h2 h3
      exact absurd ⟨h1, h2, h3⟩ hcond

/-- C5 witness: with the guard armed in month 2026-01 and the command
available, the second check of the same month is a no-op. -/
theorem reboot_guard_once_per_month_witness :
    rebootCheck true true "2026-01" 99 true true
        (rebootCheck true true "2026-01" 77 true true none (some 5)
          ⟨some 5, none, none⟩).1
        (some 6)
        (rebootCheck true true "2026-01" 77 true true none (some 5)
          ⟨some 5, none, none⟩).2.1
      = ((rebootCheck true true "2026-01" 77 true true none (some 5)
            ⟨some 5, none, none⟩).1,
         (rebootCheck true true "2026-01" 77 true true none (some 5)
            ⟨some 5, none, none⟩).2.1, []) := by
  exact (reboot_guard_once_per_month true true "2026-01" 77 true true none (some 5)
    ⟨some 5, none, none⟩).2 rfl rfl (by decide) true true 99 true true (some 6)

/-- C6: when the loaded state carries a pending reboot notification with
the positive timestamp that perform_reboot records, startup sends exactly
one deferred success notification and immediately persists the state
with the field cleared, preserving the other fields; a second startup on
the persisted state sends nothing. -/
theorem startup_pending_notification_exactly_once :
    ∀ (file : SchedPersist) (t : Nat),
    file.pendingRebootNotification = some t → 0 < t →
    ∃ st,
      startupPendingCheck file
        = (st, [SchedEvent.notifyRebootSuccess t, SchedEvent.saveState st]) ∧
      st.pendingRebootNotification = none ∧
      st.lastBackupTime = file.lastBackupTime ∧
      st.lastRebootMonth = file.lastRebootMonth ∧
      startupPendingCheck st = (st, []) := by
  intro file t hp ht
  refine ⟨{ file with pendingRebootNotification := none }, ?_, rfl, rfl, rfl, rfl⟩
  simp only [startupPendingCheck, hp]
  rw [if_neg (by omega)]

/-- C6 witness: a state holding a pending timestamp of 44 produces the
one deferred notification and the cleared, persisted state. -/
theorem startup_pending_notification_exactly_once_witness :
    startupPendingCheck ⟨some 3, some "2025-12", some 44⟩
      = (⟨some 3, some "2025-12", none⟩,
         [SchedEvent.notifyRebootSuccess 44,
          SchedEvent.saveState ⟨some 3, some "2025-12", none⟩]) := by
  obtain ⟨st, h1, h2, -, -, -⟩ :=
    startup_pending_notification_exactly_once ⟨some 3, some "2025-12", some 44⟩ 44
      rfl (by decide)
  have hst : st = ⟨some 3, some "2025-12", none⟩ := by
    rw [show st = (startupPendingCheck ⟨some 3, some "2025-12", some 44⟩).1 from by rw [h1]]
    rfl
  rw [← hst, h1]

/-- Helper: the retention loop attempts deletion exactly on the
non-manual artifacts older than the cutoff, in order, and the successful
deletions are the attempted ones the oracle accepts. -/
theorem retention_foldl_spec (cutoff : Nat) (delOk : Artifact → Bool) :
    ∀ (l : List Artifact) (acc : PolicyAcc),
    (l.foldl (retentionStep cutoff delOk) acc).attempted
        = acc.attempted
            ++ l.filter (fun b => decide (¬ b.btype = "manual" ∧ b.datetime < cutoff)) ∧
    (l.foldl (retentionStep cutoff delOk) acc).deleted
        = acc.deleted
            ++ (l.filter
                (fun b => decide (¬ b.btype = "manual" ∧ b.datetime < cutoff))).filter delOk := by
  intro l
  induction l with
  | nil => intro acc; simp
  | cons b t ih =>
    intro acc
    by_cases hman : b.btype = "manual"
    · simp [retentionStep, hman, ih]
    · by_cases hold : b.datetime < cutoff
      · by_cases hdel : delOk b = true
        · simp [retentionStep, hman, hold, hdel, ih]
        · simp [retentionStep, hman, hold, hdel, ih]
      · simp [retentionStep, hman, hold, ih]

/-- C1: provided the retention window does not reach back past the
epoch, the retention pass attempts deletion (under any deletion oracle)
on exactly the artifacts of the current server that are not manual and
are strictly older than now minus retentionDays, and with every deletion
succeeding it deletes exactly those artifacts; manual artifacts and
artifacts of other servers are never touched regardless of age. -/
theorem retention_deletes_exactly_matching_old_nonmanual :
    ∀ (backups : List Artifact) (sn : String) (now days : Nat),
    days * 1440 ≤ now →
    (∀ delOk, (apply_retention_policy backups sn now days delOk).attempted
        = backups.filter
            (fun b => decide (b.serverName = sn ∧ ¬ b.btype = "manual"
                ∧ b.datetime + days * 1440 < now))) ∧
    (apply_retention_policy backups sn now days alwaysDelete).deleted
        = backups.filter
            (fun b => decide (b.serverName = sn ∧ ¬ b.btype = "manual"
                ∧ b.datetime + days * 1440 < now)) := by
  intro backups sn now days hle
  have hpred : ∀ b : Artifact,
      (decide (¬ b.btype = "manual" ∧ b.datetime < now - days * 1440)
        && decide (b.serverName = sn))
      = decide (b.serverName = sn ∧ ¬ b.btype = "manual"
          ∧ b.datetime + days * 1440 < now) := by
    intro b
    have h4 : (b.datetime < now - days * 1440) ↔ (b.datetime + days * 1440 < now) := by
      omega
    by_cases h1 : b.serverName = sn <;> by_cases h2 : b.btype = "manual" <;>
      simp [h1, h2, h4, Bool.and_comm]
  by_cases hemp : backups.isEmpty
  · have hnil : backups = [] := List.isEmpty_iff.mp hemp
    subst hnil
    exact ⟨fun delOk => rfl, rfl⟩
  · by_cases hmat : (backups.filter (fun b => decide (b.serverName = sn))).isEmpty
    · have hfil : backups.filter
          (fun b => decide (b.serverName = sn ∧ ¬ b.btype = "manual"
              ∧ b.datetime + days * 1440 < now)) = [] := by
        rw [List.filter_eq_nil_iff]
        intro a ha
        have hno := List.filter_eq_nil_iff.mp (List.isEmpty_iff.mp hmat) a ha
        simp at hno
        simp [hno]
      constructor
      · intro delOk
        simp only [apply_retention_policy, if_neg hemp, if_pos hmat]
        rw [hfil]
      · simp only [apply_retention_policy, if_neg hemp, if_pos hmat]
        rw [hfil]
    · have hunf : ∀ delOk,
          apply_retention_policy backups sn now days delOk
            = ⟨some ((backups.filter (fun b => decide (b.serverName = sn))).foldl
                  (retentionStep (now - days * 1440) delOk) ⟨0, [], []⟩).count,
               ((backups.filter (fun b => decide (b.serverName = sn))).foldl
                  (retentionStep (now - days * 1440) delOk) ⟨0, [], []⟩).deleted,
               ((backups.filter (fun b => decide (b.serverName = sn))).foldl
                  (retentionStep (now - days * 1440) delOk) ⟨0, [], []⟩).attempted⟩ := by
        intro delOk
        simp only [apply_retention_policy, if_neg hemp, if_neg hmat]
      have hgoal : (backups.filter (fun b => decide (b.serverName = sn))).filter
          (fun b => decide (¬ b.btype = "manual" ∧ b.datetime < now - days * 1440))
          = backups.filter
              (fun b => decide (b.serverName = sn ∧ ¬ b.btype = "manual"
                  ∧ b.datetime + days * 1440 < now)) := by
        rw [List.filter_filter]
        exact List.filter_congr (fun b _ => hpred b)
      constructor
      · intro delOk
        have h := (retention_foldl_spec (now - days * 1440) delOk
          (backups.filter (fun b => decide (b.serverName = sn))) ⟨0, [], []⟩).1
        rw [List.nil_append] at h
        simp only [hunf delOk]
        rw [h, hgoal]
      · have h := (retention_foldl_spec (now - days * 1440) alwaysDelete
          (backups.filter (fun b => decide (b.serverName = sn))) ⟨0, [], []⟩).2
        rw [List.nil_append] at h
        simp only [hunf alwaysDelete]
        rw [show alwaysDelete = (fun _ : Artifact => true) from rfl] at h ⊢
        rw [List.filter_true] at h
        rw [h, hgoal]

/-- C1 witness: with a thirty-day window, artifacts of the current
server aged 31 and 100 days are deleted while ages 1, 10, 29 days, a
manual artifact aged 90 days and a foreign artifact aged 90 days all
survive. -/
theorem retention_deletes_exactly_matching_old_nonmanual_witness :
    (apply_retention_policy
        [⟨"sp1", "m", "auto", 99 * 1440, "a1"⟩,
         ⟨"sp1", "m", "auto", 90 * 1440, "a10"⟩,
         ⟨"sp1", "m", "auto", 71 * 1440, "a29"⟩,
         ⟨"sp1", "m", "auto", 69 * 1440, "a31"⟩,
         ⟨"sp1", "m", "unknown", 0, "a100"⟩,
         ⟨"sp1", "m", "manual", 10 * 1440, "m90"⟩,
         ⟨"sp2", "m", "auto", 10 * 1440, "o90"⟩]
        "sp1" (100 * 1440) 30 alwaysDelete).deleted
      = [⟨"sp1", "m", "auto", 69 * 1440, "a31"⟩,
         ⟨"sp1", "m", "unknown", 0, "a100"⟩] := by
  have h := (retention_deletes_exactly_matching_old_nonmanual
    [⟨"sp1", "m", "auto", 99 * 1440, "a1"⟩,
     ⟨"sp1", "m", "auto", 90 * 1440, "a10"⟩,
     ⟨"sp1", "m", "auto", 71 * 1440, "a29"⟩,
     ⟨"sp1", "m", "auto", 69 * 1440, "a31"⟩,
     ⟨"sp1", "m", "unknown", 0, "a100"⟩,
     ⟨"sp1", "m", "manual", 10 * 1440, "m90"⟩,
     ⟨"sp2", "m", "auto", 10 * 1440, "o90"⟩]
    "sp1" (100 * 1440) 30 (by omega)).2
  rw [h]
  decide

/-- Helper: unfolding of the group insertion at a matching head key. -/
theorem addToGroups_cons_eq (k : Nat) (b : Artifact) (g : List Artifact)
    (rest : List (Nat × List Artifact)) :
    addToGroups k b ((k, g) :: rest) = (k, g ++ [b]) :: rest := by
  simp [addToGroups]

/-- Helper: unfolding of the group insertion at a different head key. -/
theorem addToGroups_cons_ne (k : Nat) (b : Artifact) (k0 : Nat) (g : List Artifact)
    (rest : List (Nat × List Artifact)) (h : ¬ k0 = k) :
    addToGroups k b ((k0, g) :: rest) = (k0, g) :: addToGroups k b rest := by
  simp [addToGroups, h]

/-- Helper: adding under one key leaves the groups of other keys alone. -/
theorem mem_addToGroups_ne (k : Nat) (b : Artifact) (k0 : Nat) (g0 : List Artifact)
    (hne : ¬ k0 = k) :
    ∀ gs, ((k0, g0) ∈ addToGroups k b gs ↔ (k0, g0) ∈ gs) := by
  intro gs
  induction gs with
  | nil => simp [addToGroups, hne]
  | cons p rest ih =>
    obtain ⟨k1, g1⟩ := p
    by_cases h1 : k1 = k
    · subst h1
      simp [addToGroups, hne, ih]
    · simp [addToGroups, h1, ih]

/-- Helper: membership of the updated key after an insertion, under
distinct group keys. -/
theorem mem_addToGroups_eq (k : Nat) (b : Artifact) (g0 : List Artifact) :
    ∀ gs : List (Nat × List Artifact), (gs.map Prod.fst).Nodup →
    ((k, g0) ∈ addToGroups k b gs ↔
      ((¬ k ∈ gs.map Prod.fst) ∧ g0 = [b])
        ∨ (∃ g1, (k, g1) ∈ gs ∧ g0 = g1 ++ [b])) := by
  intro gs
  induction gs with
  | nil => intro _; simp [addToGroups]
  | cons p rest ih =>
    intro hnd
    obtain ⟨k1, g1⟩ := p
    have hnd2 := List.nodup_cons.mp
      (show (k1 :: rest.map Prod.fst).Nodup from hnd)
    have hk1 : ¬ k1 ∈ rest.map Prod.fst := hnd2.1
    have hndr : (rest.map Prod.fst).Nodup := hnd2.2
    by_cases h1 : k1 = k
    · subst h1
      rw [addToGroups_cons_eq]
      constructor
      · intro hm
        rcases List.mem_cons.mp hm with hm | hm
        · right
          exact ⟨g1, List.mem_cons_self _ _, (Prod.ext_iff.mp hm).2⟩
        · exact absurd (List.mem_map_of_mem Prod.fst hm) hk1
      · intro hm
        rcases hm with ⟨hnot, _⟩ | ⟨g2, hg2, he⟩
        · exact absurd (by simp) hnot
        · rcases List.mem_cons.mp hg2 with hg2 | hg2
          · have hgg : g2 = g1 := (Prod.ext_iff.mp hg2).2
            subst hgg
            simp [he]
          · exact absurd (List.mem_map_of_mem Prod.fst hg2) hk1
    · have h1s : ¬ k = k1 := fun h => h1 h.symm
      rw [addToGroups_cons_ne _ _ _ _ _ h1]
      constructor
      · intro hm
        rcases List.mem_cons.mp hm with hm | hm
        · exact absurd ((Prod.ext_iff.mp hm).1) h1s
        · rcases (ih hndr).mp hm with ⟨hnot, he⟩ | ⟨g2, hg2, he⟩
          · exact Or.inl ⟨by simp [h1s, hnot], he⟩
          · exact Or.inr ⟨g2, List.mem_cons_of_mem _ hg2, he⟩
      · intro hm
        rcases hm with ⟨hnot, he⟩ | ⟨g2, hg2, he⟩
        · refine List.mem_cons_of_mem _ ((ih hndr).mpr (Or.inl ⟨?_, he⟩))
          intro hin
          exact hnot (by simp [hin])
        · rcases List.mem_cons.mp hg2 with hg2 | hg2
          · exact absurd ((Prod.ext_iff.mp hg2).1) h1s
          · exact List.mem_cons_of_mem _ ((ih hndr).mpr (Or.inr ⟨g2, hg2, he⟩))

/-- Helper: inserting an artifact extends the key list by its day key
exactly when that key was absent. -/
theorem map_fst_addToGroups (k : Nat) (b : Artifact) :
    ∀ gs, (addToGroups k b gs).map Prod.fst
      = if k ∈ gs.map Prod.fst then gs.map Prod.fst else gs.map Prod.fst ++ [k] := by
  intro gs
  induction gs with
  | nil => simp [addToGroups]
  | cons p rest ih =>
    obtain ⟨k1, g1⟩ := p
    by_cases h1 : k1 = k
    · subst h1
      simp [addToGroups]
    · have h1s : ¬ k = k1 := fun h => h1 h.symm
      by_cases hk : k ∈ rest.map Prod.fst <;>
        simp [addToGroups, h1, ih, h1s, hk]

/-- Helper: distinctness of group keys is preserved by insertion. -/
theorem nodup_addToGroups (k : Nat) (b : Artifact) (gs : List (Nat × List Artifact))
    (h : (gs.map Prod.fst).Nodup) :
    ((addToGroups k b gs).map Prod.fst).Nodup := by
  rw [map_fst_addToGroups]
  by_cases hk : k ∈ gs.map Prod.fst
  · simpa [hk] using h
  · rw [if_neg hk]
    exact List.Nodup.append h (List.nodup_singleton _)
      (by simpa [List.disjoint_singleton] using hk)

/-- Helper: the day grouping has distinct keys, each group is the
ordered filter of the input on its day, groups are nonempty, and every
artifact occurs in the group of its own day. -/
theorem groupsByDay_spec (l : List Artifact) :
    ((groupsByDay l).map Prod.fst).Nodup ∧
    (∀ k g, (k, g) ∈ groupsByDay l → g = l.filter (fun x => decide (dayKey x = k))) ∧
    (∀ k g, (k, g) ∈ groupsByDay l → ¬ g = []) ∧
    (∀ b, b ∈ l →
      (dayKey b, l.filter (fun x => decide (dayKey x = dayKey b))) ∈ groupsByDay l) := by
  induction l using List.reverseRecOn with
  | nil => simp [groupsByDay]
  | append_singleton l b ih =>
    obtain ⟨ihnd, ihg, ihne, ihm⟩ := ih
    have hfold : groupsByDay (l ++ [b]) = addToGroups (dayKey b) b (groupsByDay l) := by
      simp [groupsByDay, List.foldl_append]
    have hkey_mem : ∀ x, x ∈ l → dayKey x ∈ (groupsByDay l).map Prod.fst := by
      intro x hx
      exact List.mem_map_of_mem Prod.fst (ihm x hx)
    have hfilter_nil : ¬ dayKey b ∈ (groupsByDay l).map Prod.fst →
        l.filter (fun x => decide (dayKey x = dayKey b)) = [] := by
      intro hnot
      rw [List.filter_eq_nil_iff]
      intro x hx hdx
      have hdx2 : dayKey x = dayKey b := of_decide_eq_true hdx
      exact hnot (hdx2 ▸ hkey_mem x hx)
    refine ⟨?_, ?_, ?_, ?_⟩
    · rw [hfold]
      exact nodup_addToGroups _ _ _ ihnd
    · intro k g hm
      rw [hfold] at hm
      by_cases hk : k = dayKey b
      · subst hk
        rcases (mem_addToGroups_eq (dayKey b) b g _ ihnd).mp hm with ⟨hnot, he⟩ | ⟨g1, hg1, he⟩
        · subst he
          rw [List.filter_append, hfilter_nil hnot]
          simp
        · subst he
          rw [ihg _ _ hg1, List.filter_append]
          simp
      · have hmem := (mem_addToGroups_ne (dayKey b) b k g hk _).mp hm
        rw [ihg _ _ hmem, List.filter_append]
        have hbk : (decide (dayKey b = k)) = false := by
          simp
          exact fun h => hk h.symm
        simp [hbk]
    · intro k g hm
      rw [hfold] at hm
      by_cases hk : k = dayKey b
      · subst hk
        rcases (mem_addToGroups_eq (dayKey b) b g _ ihnd).mp hm with ⟨_, he⟩ | ⟨g1, _, he⟩ <;>
          simp [he]
      · exact ihne _ _ ((mem_addToGroups_ne (dayKey b) b k g hk _).mp hm)
    · intro x hx
      rw [hfold]
      rcases List.mem_append.mp hx with hx | hx
      · by_cases hk : dayKey x = dayKey b
        · rw [hk]
          refine (mem_addToGroups_eq _ _ _ _ ihnd).mpr (Or.inr
            ⟨l.filter (fun y => decide (dayKey y = dayKey b)), ?_, ?_⟩)
          · have := ihm x hx
            rwa [hk] at this
          · rw [List.filter_append]
            simp
        · have hbk : (decide (dayKey b = dayKey x)) = false := by
            simp
            exact fun h => hk h.symm
          have hfa : (l ++ [b]).filter (fun y => decide (dayKey y = dayKey x))
              = l.filter (fun y => decide (dayKey y = dayKey x)) := by
            rw [List.filter_append]
            simp [hbk]
          rw [hfa]
          exact (mem_addToGroups_ne (dayKey b) b _ _ hk _).mpr (ihm x hx)
      · have hxb : x = b := by simpa using hx
        subst hxb
        by_cases hin : dayKey x ∈ (groupsByDay l).map Prod.fst
        · obtain ⟨⟨k1, g1⟩, hg1, hfst⟩ := List.mem_map.mp hin
          have hk1 : k1 = dayKey x := hfst
          subst hk1
          refine (mem_addToGroups_eq _ _ _ _ ihnd).mpr (Or.inr ⟨g1, hg1, ?_⟩)
          rw [ihg _ _ hg1, List.filter_append]
          simp
        · refine (mem_addToGroups_eq _ _ _ _ ihnd).mpr (Or.inl ⟨hin, ?_⟩)
          rw [List.filter_append, hfilter_nil hin]
          simp

/-- Helper: the per-day deletion loop attempts every listed artifact and
deletes the ones the oracle accepts. -/
theorem cleanupInner_spec (delOk : Artifact → Bool) :
    ∀ (toDel : List Artifact) (acc : PolicyAcc),
    (cleanupInner delOk acc toDel).attempted = acc.attempted ++ toDel ∧
    (cleanupInner delOk acc toDel).deleted = acc.deleted ++ toDel.filter delOk := by
  intro toDel
  induction toDel with
  | nil => intro acc; simp [cleanupInner]
  | cons b t ih =>
    intro acc
    by_cases hdel : delOk b = true
    · have hstep : cleanupInner delOk acc (b :: t)
          = cleanupInner delOk ⟨acc.count + 1, acc.deleted ++ [b], acc.attempted ++ [b]⟩ t := by
        simp [cleanupInner, hdel]
      rw [hstep]
      obtain ⟨h1, h2⟩ := ih ⟨acc.count + 1, acc.deleted ++ [b], acc.attempted ++ [b]⟩
      constructor
      · rw [h1]; simp
      · rw [h2]; simp [List.filter_cons, hdel]
    · have hstep : cleanupInner delOk acc (b :: t)
          = cleanupInner delOk ⟨acc.count, acc.deleted, acc.attempted ++ [b]⟩ t := by
        simp [cleanupInner, hdel]
      rw [hstep]
      obtain ⟨h1, h2⟩ := ih ⟨acc.count, acc.deleted, acc.attempted ++ [b]⟩
      constructor
      · rw [h1]; simp
      · rw [h2]; simp [List.filter_cons, hdel]

/-- Helper: the cleanup pass over the day groups attempts exactly the
per-group deletions, concatenated in group order. -/
theorem cleanup_groups_foldl_spec (today : Nat) (delOk : Artifact → Bool) :
    ∀ (gs : List (Nat × List Artifact)) (acc : PolicyAcc),
    (gs.foldl (cleanupGroupStep today delOk) acc).attempted
      = acc.attempted ++ ((gs.map (groupDeletions today)).flatten) ∧
    (gs.foldl (cleanupGroupStep today delOk) acc).deleted
      = acc.deleted ++ ((gs.map (groupDeletions today)).flatten).filter delOk := by
  intro gs
  induction gs with
  | nil => intro acc; simp
  | cons g rest ih =>
    intro acc
    have hstep : cleanupGroupStep today delOk acc g
        = cleanupInner delOk acc (groupDeletions today g) := by
      by_cases h1 : g.1 = today
      · simp [cleanupGroupStep, groupDeletions, h1, cleanupInner]
      · by_cases h2 : g.2.length ≤ 1 <;>
          simp [cleanupGroupStep, groupDeletions, h1, h2, cleanupInner]
    rw [List.foldl_cons, hstep]
    obtain ⟨hi1, hi2⟩ := cleanupInner_spec delOk (groupDeletions today g) acc
    obtain ⟨ha, hd⟩ := ih (cleanupInner delOk acc (groupDeletions today g))
    constructor
    · rw [ha, hi1]
      simp
    · rw [hd, hi2]
      simp [List.filter_append]

/-- Helper: a list holding two different members has at least two
elements. -/
theorem two_mem_length_gt_one {α : Type} {x y : α} {l : List α}
    (hx : x ∈ l) (hy : y ∈ l) (hne : ¬ x = y) : 1 < l.length := by
  cases l with
  | nil => simp at hx
  | cons a t =>
    cases t with
    | nil =>
      simp at hx hy
      exact absurd (hx.trans hy.symm) hne
    | cons c t2 =>
      simp only [List.length_cons]
      omega

/-- C2: cleanup is a no-op returning 0 when disabled or when the mode is
unknown; under any deletion oracle it only ever attempts artifacts of
the current server that are not manual and are not from the current
calendar day; and when enabled in mode last_per_day, with all relevant
artifacts carrying distinct timestamps and every deletion succeeding, it
deletes exactly the relevant artifacts of previous days that have a
strictly newer relevant artifact on their own day, so each previous day
keeps exactly its newest artifact. -/
theorem cleanup_keeps_latest_per_previous_day :
    ∀ (en : Bool) (mode sn : String) (backups : List Artifact) (today : Nat),
    ((¬ en = true ∨ ¬ mode = "last_per_day") → ∀ delOk,
        apply_cleanup_policy en mode backups sn today delOk
          = ⟨some 0, [], []⟩) ∧
    (∀ delOk b, b ∈ (apply_cleanup_policy en mode backups sn today delOk).attempted →
        relevantTo sn b ∧ ¬ dayKey b = today) ∧
    (en = true → mode = "last_per_day" →
      (backups.filter (fun x => decide (relevantTo sn x))).Pairwise
        (fun x y => ¬ x.datetime = y.datetime) →
      ∀ b, b ∈ (apply_cleanup_policy en mode backups sn today alwaysDelete).deleted ↔
        (b ∈ backups ∧ relevantTo sn b ∧ ¬ dayKey b = today ∧
          ∃ b2, b2 ∈ backups ∧ relevantTo sn b2 ∧ dayKey b2 = dayKey b
            ∧ b.datetime < b2.datetime)) := by
  intro en mode sn backups today
  have hpredC : ∀ x : Artifact,
      (decide (¬ x.btype = "manual") && decide (x.serverName = sn))
        = decide (relevantTo sn x) := by
    intro x
    by_cases h1 : x.serverName = sn <;> by_cases h2 : x.btype = "manual" <;>
      simp [relevantTo, h1, h2]
  have hauto : (backups.filter (fun b => decide (b.serverName = sn))).filter
      (fun b => decide (¬ b.btype = "manual"))
      = backups.filter (fun x => decide (relevantTo sn x)) := by
    rw [List.filter_filter]
    exact List.filter_congr (fun b _ => hpredC b)
  have hnoop : (¬ en = true ∨ ¬ mode = "last_per_day") → ∀ delOk,
      apply_cleanup_policy en mode backups sn today delOk = ⟨some 0, [], []⟩ := by
    intro h delOk
    by_cases hen : en = true
    · rcases h with h | h
      · exact absurd hen h
      · simp only [apply_cleanup_policy]
        rw [if_neg (not_not_intro hen), if_pos h]
    · simp only [apply_cleanup_policy]
      rw [if_pos hen]
  have hout : en = true → mode = "last_per_day" → ∀ delOk,
      (apply_cleanup_policy en mode backups sn today delOk).attempted
        = ((groupsByDay (backups.filter (fun x => decide (relevantTo sn x)))).map
            (groupDeletions today)).flatten ∧
      (apply_cleanup_policy en mode backups sn today delOk).deleted
        = (((groupsByDay (backups.filter (fun x => decide (relevantTo sn x)))).map
            (groupDeletions today)).flatten).filter delOk := by
    intro hen hmode delOk
    by_cases hemp : backups.isEmpty
    · have hnil : backups = [] := List.isEmpty_iff.mp hemp
      subst hnil
      constructor <;>
        simp [apply_cleanup_policy, groupsByDay, hen, hmode]
    · by_cases hmat : (backups.filter (fun b => decide (b.serverName = sn))).isEmpty
      · have hA : backups.filter (fun x => decide (relevantTo sn x)) = [] := by
          rw [List.filter_eq_nil_iff]
          intro a ha hrel
          have hsv : a.serverName = sn := (of_decide_eq_true hrel).1
          have hno := List.filter_eq_nil_iff.mp (List.isEmpty_iff.mp hmat) a ha
          simp at hno
          exact hno hsv
        rw [hA]
        constructor <;>
          · simp only [apply_cleanup_policy,
              if_neg (not_not_intro hen), if_neg (not_not_intro hmode),
              if_neg hemp, if_pos hmat]
            simp [groupsByDay]
      · simp only [apply_cleanup_policy,
          if_neg (not_not_intro hen), if_neg (not_not_intro hmode),
          if_neg hemp, if_neg hmat, hauto]
        by_cases hA : (backups.filter (fun x => decide (relevantTo sn x))).isEmpty
        · rw [if_pos hA, List.isEmpty_iff.mp hA]
          constructor <;> simp [groupsByDay]
        · rw [if_neg hA]
          obtain ⟨hfa, hfd⟩ := cleanup_groups_foldl_spec today delOk
            (groupsByDay (backups.filter (fun x => decide (relevantTo sn x)))) ⟨0, [], []⟩
          exact ⟨hfa.trans (List.nil_append _), hfd.trans (List.nil_append _)⟩
  have hmemdel : ∀ b : Artifact,
      b ∈ ((groupsByDay (backups.filter (fun x => decide (relevantTo sn x)))).map
            (groupDeletions today)).flatten →
      ∃ k g, (k, g) ∈ groupsByDay (backups.filter (fun x => decide (relevantTo sn x)))
        ∧ ¬ k = today ∧ ¬ g.length ≤ 1
        ∧ b ∈ (List.insertionSort dtDescLe g).drop 1 := by
    intro b hb
    obtain ⟨dl, hdl, hbdl⟩ := List.mem_flatten.mp hb
    obtain ⟨⟨k, g⟩, hkg, hmapeq⟩ := List.mem_map.mp hdl
    rw [← hmapeq] at hbdl
    by_cases hk : k = today
    · simp [groupDeletions, hk] at hbdl
    · by_cases hlen : g.length ≤ 1
      · simp [groupDeletions, hk, hlen] at hbdl
      · exact ⟨k, g, hkg, hk, hlen, by simpa [groupDeletions, hk, hlen] using hbdl⟩
  have hsafety : ∀ delOk b,
      b ∈ (apply_cleanup_policy en mode backups sn today delOk).attempted →
      relevantTo sn b ∧ ¬ dayKey b = today := by
    intro delOk b hb
    by_cases hen : en = true
    · by_cases hmode : mode = "last_per_day"
      · obtain ⟨hfa, -⟩ := hout hen hmode delOk
        rw [hfa] at hb
        obtain ⟨k, g, hkg, hk, hlen, hbs⟩ := hmemdel b hb
        obtain ⟨-, hcontent, -, -⟩ :=
          groupsByDay_spec (backups.filter (fun x => decide (relevantTo sn x)))
        have hbg : b ∈ g :=
          (List.perm_insertionSort dtDescLe g).mem_iff.mp
            (List.mem_of_mem_drop hbs)
        rw [hcontent k g hkg] at hbg
        obtain ⟨hbA, hbday⟩ := List.mem_filter.mp hbg
        obtain ⟨-, hbrel⟩ := List.mem_filter.mp hbA
        refine ⟨of_decide_eq_true hbrel, ?_⟩
        rw [of_decide_eq_true hbday]
        exact hk
      · rw [hnoop (Or.inr hmode) delOk] at hb
        simp at hb
    · rw [hnoop (Or.inl hen) delOk] at hb
      simp at hb
  refine ⟨hnoop, hsafety, ?_⟩
  intro hen hmode hdist b
  obtain ⟨-, hfd⟩ := hout hen hmode alwaysDelete
  rw [hfd, show alwaysDelete = (fun _ : Artifact => true) from rfl, List.filter_true]
  obtain ⟨hnd, hcontent, hgne, hmem⟩ :=
    groupsByDay_spec (backups.filter (fun x => decide (relevantTo sn x)))
  constructor
  · intro hb
    obtain ⟨k, g, hkg, hk, hlen, hbs⟩ := hmemdel b hb
    have hgfil := hcontent k g hkg
    have hperm := List.perm_insertionSort dtDescLe g
    have hsort := List.sorted_insertionSort dtDescLe g
    have hdg : g.Pairwise (fun x y => ¬ x.datetime = y.datetime) := by
      rw [hgfil]
      exact List.Pairwise.filter _ hdist
    have hds : (List.insertionSort dtDescLe g).Pairwise
        (fun x y => ¬ x.datetime = y.datetime) :=
      (hperm.pairwise_iff (fun h e => h e.symm)).mpr hdg
    cases hsE : List.insertionSort dtDescLe g with
    | nil =>
      rw [hsE] at hbs
      simp at hbs
    | cons h0 t =>
      rw [hsE] at hbs
      have hbt : b ∈ t := by simpa using hbs
      have hbS : b ∈ List.insertionSort dtDescLe g := by
        rw [hsE]; exact List.mem_cons_of_mem _ hbt
      have hh0S : h0 ∈ List.insertionSort dtDescLe g := by
        rw [hsE]; exact List.mem_cons_self _ _
      have hbg : b ∈ g := hperm.mem_iff.mp hbS
      have hh0g : h0 ∈ g := hperm.mem_iff.mp hh0S
      have hble : b.datetime ≤ h0.datetime := by
        have := List.rel_of_sorted_cons (hsE ▸ hsort) b hbt
        exact this
      have hbneq : ¬ h0.datetime = b.datetime := by
        have := (List.pairwise_cons.mp (hsE ▸ hds)).1
        exact this b hbt
      have hblt : b.datetime < h0.datetime :=
        Nat.lt_of_le_of_ne hble (fun h => hbneq h.symm)
      rw [hgfil] at hbg hh0g
      obtain ⟨hbA, hbday⟩ := List.mem_filter.mp hbg
      obtain ⟨hh0A, hh0day⟩ := List.mem_filter.mp hh0g
      obtain ⟨hbB, hbrel⟩ := List.mem_filter.mp hbA
      obtain ⟨hh0B, hh0rel⟩ := List.mem_filter.mp hh0A
      have hbd : dayKey b = k := of_decide_eq_true hbday
      have hh0d : dayKey h0 = k := of_decide_eq_true hh0day
      refine ⟨hbB, of_decide_eq_true hbrel, by rw [hbd]; exact hk,
        h0, hh0B, of_decide_eq_true hh0rel, by rw [hh0d, hbd], hblt⟩
  · rintro ⟨hbB, hbrel, hbday, b2, hb2B, hb2rel, hb2day, hblt⟩
    have hbA : b ∈ backups.filter (fun x => decide (relevantTo sn x)) :=
      List.mem_filter.mpr ⟨hbB, decide_eq_true hbrel⟩
    have hb2A : b2 ∈ backups.filter (fun x => decide (relevantTo sn x)) :=
      List.mem_filter.mpr ⟨hb2B, decide_eq_true hb2rel⟩
    have hg := hmem b hbA
    have hbG : b ∈ (backups.filter (fun x => decide (relevantTo sn x))).filter
        (fun x => decide (dayKey x = dayKey b)) :=
      List.mem_filter.mpr ⟨hbA, by simp⟩
    have hb2G : b2 ∈ (backups.filter (fun x => decide (relevantTo sn x))).filter
        (fun x => decide (dayKey x = dayKey b)) :=
      List.mem_filter.mpr ⟨hb2A, decide_eq_true hb2day⟩
    have hbne2 : ¬ b = b2 := by
      intro h
      rw [h] at hblt
      exact Nat.lt_irrefl _ hblt
    have hlen : 1 < ((backups.filter (fun x => decide (relevantTo sn x))).filter
        (fun x => decide (dayKey x = dayKey b))).length :=
      two_mem_length_gt_one hbG hb2G hbne2
    have hperm := List.perm_insertionSort dtDescLe
      ((backups.filter (fun x => decide (relevantTo sn x))).filter
        (fun x => decide (dayKey x = dayKey b)))
    have hsort := List.sorted_insertionSort dtDescLe
      ((backups.filter (fun x => decide (relevantTo sn x))).filter
        (fun x => decide (dayKey x = dayKey b)))
    have hbS := hperm.mem_iff.mpr hbG
    have hb2S := hperm.mem_iff.mpr hb2G
    have hdrop : b ∈ (List.insertionSort dtDescLe
        ((backups.filter (fun x => decide (relevantTo sn x))).filter
          (fun x => decide (dayKey x = dayKey b)))).drop 1 := by
      cases hsE : List.insertionSort dtDescLe
          ((backups.filter (fun x => decide (relevantTo sn x))).filter
            (fun x => decide (dayKey x = dayKey b))) with
      | nil =>
        rw [hsE] at hbS
        simp at hbS
      | cons h0 t =>
        rw [hsE] at hbS hb2S
        have hbne_h0 : ¬ b = h0 := by
          intro he
          rcases List.mem_cons.mp hb2S with h2 | h2
          · rw [he, ← h2] at hbne2
            exact hbne2 rfl
          · have hrel := List.rel_of_sorted_cons (hsE ▸ hsort) b2 h2
            rw [← he] at hrel
            have hrel2 : b2.datetime ≤ b.datetime := hrel
            omega
        have hbt : b ∈ t := by
          rcases List.mem_cons.mp hbS with h2 | h2
          · exact absurd h2 hbne_h0
          · exact h2
        simpa using hbt
    refine List.mem_flatten.mpr
      ⟨groupDeletions today (dayKey b,
        (backups.filter (fun x => decide (relevantTo sn x))).filter
          (fun x => decide (dayKey x = dayKey b))),
       List.mem_map_of_mem _ hg, ?_⟩
    have hlen2 : ¬ ((backups.filter (fun x => decide (relevantTo sn x))).filter
        (fun x => decide (dayKey x = dayKey b))).length ≤ 1 := by omega
    simp only [groupDeletions]
    rw [if_neg hbday, if_neg hlen2]
    exact hdrop

/-- C2 witness: with three artifacts yesterday (day key 10) and two
today (day key 11), cleanup deletes yesterday's two older artifacts and
in particular the middle one, keeping the newest. -/
theorem cleanup_keeps_latest_per_previous_day_witness :
    (⟨"sp1", "m", "auto", 10 * 1440 + 120, "y2"⟩ : Artifact)
      ∈ (apply_cleanup_policy true "last_per_day"
          [⟨"sp1", "m", "auto", 10 * 1440 + 60, "y1"⟩,
           ⟨"sp1", "m", "auto", 10 * 1440 + 120, "y2"⟩,
           ⟨"sp1", "m", "auto", 10 * 1440 + 180, "y3"⟩,
           ⟨"sp1", "m", "auto", 11 * 1440 + 60, "t1"⟩,
           ⟨"sp1", "m", "auto", 11 * 1440 + 120, "t2"⟩]
          "sp1" 11 alwaysDelete).deleted := by
  have h := (cleanup_keeps_latest_per_previous_day true "last_per_day" "sp1"
    [⟨"sp1", "m", "auto", 10 * 1440 + 60, "y1"⟩,
     ⟨"sp1", "m", "auto", 10 * 1440 + 120, "y2"⟩,
     ⟨"sp1", "m", "auto", 10 * 1440 + 180, "y3"⟩,
     ⟨"sp1", "m", "auto", 11 * 1440 + 60, "t1"⟩,
     ⟨"sp1", "m", "auto", 11 * 1440 + 120, "t2"⟩] 11).2.2
    rfl rfl (by decide) ⟨"sp1", "m", "auto", 10 * 1440 + 120, "y2"⟩
  exact h.mpr (by decide)

/-- Helper: digit characters are digits. -/
theorem digitChar_isDigit (d : Nat) (h : d < 10) : (digitChar d).isDigit = true := by
  interval_cases d <;> decide

/-- Helper: code point of a digit character. -/
theorem digitChar_toNat (d : Nat) (h : d < 10) : (digitChar d).toNat = 48 + d := by
  interval_cases d <;> decide

/-- Helper: a digit character is not a delimiter and not whitespace. -/
theorem isDigit_facts {c : Char} (h : c.isDigit = true) :
    ¬ c = '-' ∧ ¬ c = '_' ∧ ¬ c = '.' ∧ pyWsChar c = false := by
  refine ⟨?_, ?_, ?_, ?_⟩
  · intro he; subst he; exact absurd h (by decide)
  · intro he; subst he; exact absurd h (by decide)
  · intro he; subst he; exact absurd h (by decide)
  · by_contra hw
    have hw2 : pyWsChar c = true := by simpa using hw
    simp [pyWsChar] at hw2
    rcases hw2 with ((((rfl | rfl) | rfl) | rfl) | rfl) | rfl <;> exact absurd h (by decide)

/-- Helper: the digit expansion does not depend on the fuel, once
sufficient. -/
theorem natDigitsFuel_stable : ∀ (f1 f2 n : Nat), n < f1 → n < f2 →
    natDigitsFuel f1 n = natDigitsFuel f2 n := by
  intro f1
  induction f1 with
  | zero => intro f2 n h1 h2; omega
  | succ f1 ih =>
    intro f2 n h1 h2
    cases f2 with
    | zero => omega
    | succ f2 =>
      simp only [natDigitsFuel]
      by_cases h10 : n < 10
      · rw [if_pos h10, if_pos h10]
      · rw [if_neg h10, if_neg h10]
        have hd : n / 10 < n := Nat.div_lt_self (by omega) (by omega)
        rw [ih f2 (n / 10) (by omega) (by omega)]

/-- Helper: digit expansion of a one-digit number. -/
theorem natDigits_lt10 {n : Nat} (h : n < 10) : natDigits n = [digitChar n] := by
  simp [natDigits, natDigitsFuel, h]

/-- Helper: digit expansion step for numbers of ten or more. -/
theorem natDigits_ge10 {n : Nat} (h : 10 ≤ n) :
    natDigits n = natDigits (n / 10) ++ [digitChar (n % 10)] := by
  have hd : n / 10 < n := Nat.div_lt_self (by omega) (by omega)
  have h1 : natDigits n = natDigitsFuel n (n / 10) ++ [digitChar (n % 10)] := by
    rw [natDigits]
    rw [show natDigitsFuel (n + 1) n
        = if n < 10 then [digitChar n]
          else natDigitsFuel n (n / 10) ++ [digitChar (n % 10)] from rfl]
    rw [if_neg (by omega)]
  rw [h1, natDigits]
  rw [natDigitsFuel_stable n (n / 10 + 1) (n / 10) (by omega) (by omega)]

/-- Helper: the digit expansion is never empty. -/
theorem natDigits_ne_nil (n : Nat) : ¬ natDigits n = [] := by
  by_cases h : n < 10
  · rw [natDigits_lt10 h]; simp
  · rw [natDigits_ge10 (by omega)]; simp

/-- Helper: every character of the digit expansion is a digit. -/
theorem natDigits_all_digit : ∀ n, ∀ c ∈ natDigits n, c.isDigit = true := by
  intro n
  induction n using Nat.strong_induction_on with
  | _ n ih =>
    by_cases h : n < 10
    · rw [natDigits_lt10 h]
      intro c hc
      rw [List.mem_singleton.mp hc]
      exact digitChar_isDigit n h
    · rw [natDigits_ge10 (by omega)]
      intro c hc
      rcases List.mem_append.mp hc with hc | hc
      · exact ih (n / 10) (Nat.div_lt_self (by omega) (by omega)) c hc
      · rw [List.mem_singleton.mp hc]
        exact digitChar_isDigit _ (Nat.mod_lt _ (by omega))

/-- Helper: appending one character to a digit token multiplies its
value by ten. -/
theorem digitVal_append_single (xs : List Char) (c : Char) :
    digitVal (xs ++ [c]) = digitVal xs * 10 + (c.toNat - 48) := by
  simp [digitVal, List.foldl_append]

/-- Helper: the digit expansion evaluates back to its number. -/
theorem digitVal_natDigits : ∀ n, digitVal (natDigits n) = n := by
  intro n
  induction n using Nat.strong_induction_on with
  | _ n ih =>
    by_cases h : n < 10
    · rw [natDigits_lt10 h]
      simp [digitVal, digitChar_toNat n h]
    · rw [natDigits_ge10 (by omega), digitVal_append_single,
        ih (n / 10) (Nat.div_lt_self (by omega) (by omega)),
        digitChar_toNat _ (Nat.mod_lt _ (by omega))]
      omega

/-- Helper: two-digit numbers expand to two digits. -/
theorem natDigits_length2 {n : Nat} (h1 : 10 ≤ n) (h2 : n < 100) :
    (natDigits n).length = 2 := by
  rw [natDigits_ge10 h1, List.length_append, natDigits_lt10 (show n / 10 < 10 by omega)]
  simp

/-- Helper: four-digit numbers expand to four digits. -/
theorem natDigits_length4 {n : Nat} (h1 : 1000 ≤ n) (h2 : n < 10000) :
    (natDigits n).length = 4 := by
  rw [natDigits_ge10 (by omega), List.length_append]
  rw [natDigits_ge10 (show 10 ≤ n / 10 by omega), List.length_append]
  rw [natDigits_ge10 (show 10 ≤ n / 10 / 10 by omega), List.length_append]
  rw [natDigits_lt10 (show n / 10 / 10 / 10 < 10 by omega)]
  simp

/-- Helper: the zero-padded field consists of digits. -/
theorem pad2_all_digit (n : Nat) : ∀ c ∈ pad2 n, c.isDigit = true := by
  intro c hc
  by_cases h : n < 10
  · rw [pad2, if_pos h] at hc
    rcases List.mem_cons.mp hc with rfl | hc
    · decide
    · exact natDigits_all_digit n c hc
  · rw [pad2, if_neg h] at hc
    exact natDigits_all_digit n c hc

/-- Helper: the zero-padded field of a value below one hundred has
exactly two characters. -/
theorem pad2_length {n : Nat} (h : n < 100) : (pad2 n).length = 2 := by
  by_cases h10 : n < 10
  · simp [pad2, h10, natDigits_lt10 h10]
  · simp [pad2, h10, natDigits_length2 (by omega) h]

/-- Helper: the zero-padded field evaluates back to its value. -/
theorem digitVal_pad2 (n : Nat) : digitVal (pad2 n) = n := by
  by_cases h10 : n < 10
  · rw [pad2, if_pos h10, natDigits_lt10 h10]
    simp [digitVal, digitChar_toNat n h10]
  · rw [pad2, if_neg h10]
    exact digitVal_natDigits n

/-- Helper: no delimiter occurs in an all-digit token. -/
theorem no_delim_of_all_digit {l : List Char}
    (hall : ∀ c ∈ l, c.isDigit = true) :
    ¬ '-' ∈ l ∧ ¬ '_' ∈ l ∧ ¬ '.' ∈ l := by
  refine ⟨fun hm => ?_, fun hm => ?_, fun hm => ?_⟩
  · exact (isDigit_facts (hall _ hm)).1 rfl
  · exact (isDigit_facts (hall _ hm)).2.1 rfl
  · exact (isDigit_facts (hall _ hm)).2.2.1 rfl

/-- Helper: the split of a string never yields an empty segment list. -/
theorem splitOnChar_ne_nil (sep : Char) : ∀ l, ¬ splitOnChar sep l = [] := by
  intro l
  cases l with
  | nil => simp [splitOnChar]
  | cons c t =>
    simp only [splitOnChar]
    cases splitOnChar sep t with
    | nil => simp
    | cons g gs => by_cases hc : c = sep <;> simp [hc]

/-- Helper: splitting a separator-free string yields one segment. -/
theorem splitOnChar_no_sep (sep : Char) : ∀ xs, ¬ sep ∈ xs → splitOnChar sep xs = [xs] := by
  intro xs
  induction xs with
  | nil => intro _; rfl
  | cons c t ih =>
    intro h
    have hc : ¬ c = sep := fun he => h (he ▸ List.mem_cons_self c t)
    have ht : ¬ sep ∈ t := fun hm => h (List.mem_cons_of_mem _ hm)
    rw [show splitOnChar sep (c :: t)
        = (match splitOnChar sep t with
           | [] => [[]]
           | g :: gs => if c = sep then [] :: g :: gs else (c :: g) :: gs) from rfl]
    rw [ih ht]
    simp [hc]

/-- Helper: splitting past a leading separator-free segment peels off
that segment. -/
theorem splitOnChar_append (sep : Char) : ∀ xs ys, ¬ sep ∈ xs →
    splitOnChar sep (xs ++ sep :: ys) = xs :: splitOnChar sep ys := by
  intro xs
  induction xs with
  | nil =>
    intro ys _
    rw [List.nil_append]
    rw [show splitOnChar sep (sep :: ys)
        = (match splitOnChar sep ys with
           | [] => [[]]
           | g :: gs => if sep = sep then [] :: g :: gs else (sep :: g) :: gs) from rfl]
    cases hE : splitOnChar sep ys with
    | nil => exact absurd hE (splitOnChar_ne_nil sep ys)
    | cons g gs => simp
  | cons c t ih =>
    intro ys h
    have hc : ¬ c = sep := fun he => h (he ▸ List.mem_cons_self c t)
    have ht : ¬ sep ∈ t := fun hm => h (List.mem_cons_of_mem _ hm)
    rw [List.cons_append]
    rw [show splitOnChar sep (c :: (t ++ sep :: ys))
        = (match splitOnChar sep (t ++ sep :: ys) with
           | [] => [[]]
           | g :: gs => if c = sep then [] :: g :: gs else (c :: g) :: gs) from rfl]
    rw [ih ys ht]
    simp [hc]

/-- Helper: stripping the zip extension from a body holding a non-dot
character recovers the body. -/
theorem splitextRoot_zip (body : List Char) (hbody : ∃ c ∈ body, ¬ c = '.') :
    splitextRoot (body ++ ".zip".data) = body := by
  have hrev : (body ++ ".zip".data).reverse = 'p' :: 'i' :: 'z' :: '.' :: body.reverse := by
    rw [List.reverse_append]
    rfl
  have htake : ('p' :: 'i' :: 'z' :: '.' :: body.reverse).takeWhile
      (fun c => ¬ c = '.') = ['p', 'i', 'z'] := by
    simp [List.takeWhile_cons]
  simp only [splitextRoot]
  rw [hrev, htake]
  rw [if_neg (by
    simp only [List.length_cons, List.length_nil]
    omega)]
  rw [show ('p' :: 'i' :: 'z' :: '.' :: body.reverse).drop (['p', 'i', 'z'].length + 1)
      = body.reverse from rfl]
  obtain ⟨c, hc, hcne⟩ := hbody
  rw [if_pos (by
    refine List.any_eq_true.mpr ⟨c, List.mem_reverse.mpr hc, ?_⟩
    simpa using hcne)]
  exact List.reverse_reverse body

/-- Helper: an all-digit token is nonempty digits. -/
theorem allDigits_intro {s : List Char} (hne : ¬ s = [])
    (hall : ∀ c ∈ s, c.isDigit = true) : allDigits s = true := by
  simp only [allDigits, Bool.and_eq_true, Bool.not_eq_true', List.all_eq_true]
  exact ⟨by simp [List.isEmpty_iff, hne], hall⟩

/-- Helper: leading-whitespace removal fixes an all-digit token. -/
theorem dropWhile_ws_of_digit {l : List Char}
    (hall : ∀ c ∈ l, c.isDigit = true) :
    l.dropWhile (fun c => pyWsChar c) = l := by
  cases l with
  | nil => rfl
  | cons c t =>
    rw [List.dropWhile_cons_of_neg]
    simp [(isDigit_facts (hall c (List.mem_cons_self c t))).2.2.2]

/-- Helper: trailing-whitespace removal fixes an all-digit token. -/
theorem rdropWs_of_digit {l : List Char}
    (hall : ∀ c ∈ l, c.isDigit = true) : rdropWs l = l := by
  rw [rdropWs]
  refine List.rdropWhile_eq_self_iff.mpr ?_
  intro hl
  simp [(isDigit_facts (hall _ (List.getLast_mem hl))).2.2.2]

/-- Helper: stripping fixes an all-digit token. -/
theorem pyStripChars_of_digit {l : List Char}
    (hall : ∀ c ∈ l, c.isDigit = true) : pyStripChars l = l := by
  rw [pyStripChars, dropWhile_ws_of_digit hall, rdropWs_of_digit hall]

/-- Helper: the digit prefix of an all-digit token is everything. -/
theorem takeWhile_digit_of_all {l : List Char}
    (hall : ∀ c ∈ l, c.isDigit = true) : l.takeWhile Char.isDigit = l := by
  induction l with
  | nil => rfl
  | cons c t ih =>
    rw [List.takeWhile_cons_of_pos (hall c (List.mem_cons_self c t))]
    rw [ih (fun x hx => hall x (List.mem_cons_of_mem _ hx))]

/-- Helper: dropping the digit prefix of an all-digit token leaves
nothing. -/
theorem dropWhile_digit_of_all {l : List Char}
    (hall : ∀ c ∈ l, c.isDigit = true) : l.dropWhile Char.isDigit = [] := by
  induction l with
  | nil => rfl
  | cons c t ih =>
    rw [List.dropWhile_cons_of_pos (hall c (List.mem_cons_self c t))]
    exact ih (fun x hx => hall x (List.mem_cons_of_mem _ hx))

/-- Helper: the month table never exceeds thirty-one days. -/
theorem daysInMonth_le_31 (y m : Nat) : daysInMonth y m ≤ 31 := by
  unfold daysInMonth
  split_ifs <;> omega

/-- Helper: the zero-padded field is nonempty. -/
theorem pad2_ne_nil (n : Nat) : ¬ pad2 n = [] := by
  by_cases h10 : n < 10
  · rw [pad2, if_pos h10]; simp
  · rw [pad2, if_neg h10]; exact natDigits_ne_nil n

/-- Helper: the strptime model accepts the strftime-rendered tokens of a
valid timestamp with a four-digit year and returns that timestamp. -/
theorem strptime_encode (dt : PyDateTime) (h : validStamp dt) (hy : 1000 ≤ dt.year) :
    strptimeYMDHM (natDigits dt.year) (pad2 dt.month) (pad2 dt.day)
      (pad2 dt.hour) (pad2 dt.minute) = some dt := by
  obtain ⟨y, mo, d, hh, mi⟩ := dt
  obtain ⟨hy1, hy2, hmo1, hmo2, hd1, hd2, hhh, hmi⟩ := h
  simp only at hy hy1 hy2 hmo1 hmo2 hd1 hd2 hhh hmi
  have hdm : daysInMonth y mo ≤ 31 := daysInMonth_le_31 y mo
  simp only [strptimeYMDHM]
  rw [takeWhile_digit_of_all (pad2_all_digit d),
    dropWhile_digit_of_all (pad2_all_digit d),
    dropWhile_ws_of_digit (pad2_all_digit hh)]
  rw [if_pos ⟨natDigits_length4 hy (by omega),
    List.all_eq_true.mpr (natDigits_all_digit y),
    allDigits_intro (pad2_ne_nil mo) (pad2_all_digit mo),
    by rw [pad2_length (by omega)],
    by rw [digitVal_pad2]; omega,
    by rw [digitVal_pad2]; omega,
    allDigits_intro (pad2_ne_nil d) (pad2_all_digit d),
    by rw [pad2_length (by omega)],
    by rw [digitVal_pad2]; omega,
    by rw [digitVal_pad2]; omega,
    by simp,
    allDigits_intro (pad2_ne_nil hh) (pad2_all_digit hh),
    by rw [pad2_length (by omega)],
    by rw [digitVal_pad2]; omega,
    allDigits_intro (pad2_ne_nil mi) (pad2_all_digit mi),
    by rw [pad2_length (by omega)],
    by rw [digitVal_pad2]; omega⟩]
  rw [if_pos ⟨by rw [digitVal_natDigits]; omega,
    by rw [digitVal_pad2, digitVal_pad2, digitVal_natDigits]; exact hd2⟩]
  rw [digitVal_natDigits, digitVal_pad2, digitVal_pad2, digitVal_pad2, digitVal_pad2]

/-- Helper: joining a single segment is that segment. -/
theorem joinHyphen_singleton (x : List Char) : joinHyphen [x] = x := by
  simp [joinHyphen, List.intercalate]

/-- Helper: the hyphen split of a generated filename body recovers the
seven segments. -/
theorem splitOnChar_encode_body (srv inst kind : List Char) (dt : PyDateTime)
    (hsrv : ¬ '-' ∈ srv) (hinst : ¬ '-' ∈ inst) (hkind : ¬ '-' ∈ kind) :
    splitOnChar '-' (encode_body srv inst kind dt)
      = [srv, inst, kind, pad2 dt.hour, pad2 dt.minute ++ '_' :: pad2 dt.day,
         pad2 dt.month, natDigits dt.year] := by
  have hno : ∀ n, ¬ '-' ∈ pad2 n := fun n => (no_delim_of_all_digit (pad2_all_digit n)).1
  have hnoY : ¬ '-' ∈ natDigits dt.year := (no_delim_of_all_digit (natDigits_all_digit _)).1
  have hnoMD : ¬ '-' ∈ pad2 dt.minute ++ '_' :: pad2 dt.day := by
    intro hm
    rcases List.mem_append.mp hm with hm | hm
    · exact hno _ hm
    · rcases List.mem_cons.mp hm with he | hm
      · exact absurd he (by decide)
      · exact hno _ hm
  rw [encode_body]
  simp only [List.cons_append, List.append_assoc]
  rw [splitOnChar_append '-' srv _ hsrv,
    splitOnChar_append '-' inst _ hinst,
    splitOnChar_append '-' kind _ hkind,
    splitOnChar_append '-' (pad2 dt.hour) _ (hno _)]
  rw [show pad2 dt.minute ++ '_' :: (pad2 dt.day ++ '-' :: (pad2 dt.month ++ '-' :: natDigits dt.year))
      = (pad2 dt.minute ++ '_' :: pad2 dt.day) ++ '-' :: (pad2 dt.month ++ '-' :: natDigits dt.year)
    from by simp [List.cons_append, List.append_assoc]]
  rw [splitOnChar_append '-' (pad2 dt.minute ++ '_' :: pad2 dt.day) _ hnoMD,
    splitOnChar_append '-' (pad2 dt.month) _ (hno _),
    splitOnChar_no_sep '-' (natDigits dt.year) hnoY]

/-- Helper: the underscore split of the minute-day token recovers both
fields. -/
theorem splitOnChar_minute_day (dt : PyDateTime) :
    splitOnChar '_' (pad2 dt.minute ++ '_' :: pad2 dt.day)
      = [pad2 dt.minute, pad2 dt.day] := by
  rw [splitOnChar_append '_' _ _ ((no_delim_of_all_digit (pad2_all_digit _)).2.1),
    splitOnChar_no_sep '_' _ ((no_delim_of_all_digit (pad2_all_digit _)).2.1)]

/-- C7 counterexample: the codec round trip fails for a timestamp with a
three-digit year; glibc strftime renders the year 500 unpadded as three
characters, which the strptime four-digit year pattern rejects, so the
generated filename decodes to invalid rather than to its inputs. -/
theorem codec_roundtrip_fails_three_digit_year :
    parse_backup_name (generate_backup_name "srv".data "inst".data "auto".data
        ⟨500, 1, 13, 14, 30⟩ ".zip".data) = none ∧
    ¬ parse_backup_name (generate_backup_name "srv".data "inst".data "auto".data
        ⟨500, 1, 13, 14, 30⟩ ".zip".data)
      = some ⟨"srv".data, "inst".data, "auto".data, ⟨500, 1, 13, 14, 30⟩,
          generate_backup_name "srv".data "inst".data "auto".data
            ⟨500, 1, 13, 14, 30⟩ ".zip".data⟩ := by
  constructor <;> decide

/-- C7 (amended): for hyphen-free server name and instance type, kind
auto or manual, and every valid timestamp with a four-digit year,
decoding the generated filename returns exactly the encoded server name,
instance type, kind and minute-precision timestamp. -/
theorem codec_roundtrip_four_digit_year :
    ∀ (srv inst kind : List Char) (dt : PyDateTime),
    ¬ '-' ∈ srv → ¬ '-' ∈ inst →
    (kind = "auto".data ∨ kind = "manual".data) →
    validStamp dt → 1000 ≤ dt.year →
    parse_backup_name (generate_backup_name srv inst kind dt ".zip".data)
      = some ⟨srv, inst, kind, dt,
          generate_backup_name srv inst kind dt ".zip".data⟩ := by
  intro srv inst kind dt hsrv hinst hkind hv hy
  have hkindh : ¬ '-' ∈ kind := by rcases hkind with rfl | rfl <;> decide
  have hroot : splitextRoot (generate_backup_name srv inst kind dt ".zip".data)
      = encode_body srv inst kind dt := by
    rw [generate_backup_name]
    refine splitextRoot_zip _ ⟨'-', ?_, by decide⟩
    rw [encode_body]
    exact List.mem_append.mpr (Or.inr (List.mem_cons_self _ _))
  have hsplit := splitOnChar_encode_body srv inst kind dt hsrv hinst hkindh
  have hkindtok : (kind = "auto".data || kind = "manual".data) = true := by
    rcases hkind with rfl | rfl <;> simp
  simp only [parse_backup_name, hroot, hsplit]
  simp only [List.length_cons, List.length_nil]
  rw [if_neg (by omega)]
  simp only [show (6 + 1 : Nat) - 5 = 2 from rfl, List.get?]
  simp only [decide_eq_true (show (7 : Nat) ≤ 6 + 1 by omega), hkindtok, Bool.and_self,
    if_true, Option.getD_some]
  simp only [show (6 + 1 : Nat) - 5 = 2 from rfl, List.take]
  simp only [List.getLast?, Option.getD_some]
  simp only [show (6 + 1 : Nat) - 4 = 3 from rfl, List.drop]
  rw [splitOnChar_minute_day dt]
  simp only [strptime_encode dt hv hy]
  simp [joinHyphen_singleton]

/-- C7 witness: a concrete 2026 timestamp round-trips. -/
theorem codec_roundtrip_four_digit_year_witness :
    parse_backup_name (generate_backup_name "pbx".data "master".data "auto".data
        ⟨2026, 1, 13, 14, 30⟩ ".zip".data)
      = some ⟨"pbx".data, "master".data, "auto".data, ⟨2026, 1, 13, 14, 30⟩,
          generate_backup_name "pbx".data "master".data "auto".data
            ⟨2026, 1, 13, 14, 30⟩ ".zip".data⟩ :=
  codec_roundtrip_four_digit_year "pbx".data "master".data "auto".data
    ⟨2026, 1, 13, 14, 30⟩ (by decide) (by decide) (Or.inl rfl)
    (by constructor <;> simp [daysInMonth, isLeapYear]) (by decide)

/-- Helper: the hyphen split of a legacy filename body recovers the six
segments. -/
theorem splitOnChar_legacy_body (srv inst : List Char) (dt : PyDateTime)
    (hsrv : ¬ '-' ∈ srv) (hinst : ¬ '-' ∈ inst) :
    splitOnChar '-' (legacy_body srv inst dt)
      = [srv, inst, pad2 dt.hour, pad2 dt.minute ++ '_' :: pad2 dt.day,
         pad2 dt.month, natDigits dt.year] := by
  have hno : ∀ n, ¬ '-' ∈ pad2 n := fun n => (no_delim_of_all_digit (pad2_all_digit n)).1
  have hnoY : ¬ '-' ∈ natDigits dt.year := (no_delim_of_all_digit (natDigits_all_digit _)).1
  have hnoMD : ¬ '-' ∈ pad2 dt.minute ++ '_' :: pad2 dt.day := by
    intro hm
    rcases List.mem_append.mp hm with hm | hm
    · exact hno _ hm
    · rcases List.mem_cons.mp hm with he | hm
      · exact absurd he (by decide)
      · exact hno _ hm
  rw [legacy_body]
  simp only [List.cons_append, List.append_assoc]
  rw [splitOnChar_append '-' srv _ hsrv,
    splitOnChar_append '-' inst _ hinst,
    splitOnChar_append '-' (pad2 dt.hour) _ (hno _)]
  rw [show pad2 dt.minute ++ '_' :: (pad2 dt.day ++ '-' :: (pad2 dt.month ++ '-' :: natDigits dt.year))
      = (pad2 dt.minute ++ '_' :: pad2 dt.day) ++ '-' :: (pad2 dt.month ++ '-' :: natDigits dt.year)
    from by simp [List.cons_append, List.append_assoc]]
  rw [splitOnChar_append '-' (pad2 dt.minute ++ '_' :: pad2 dt.day) _ hnoMD,
    splitOnChar_append '-' (pad2 dt.month) _ (hno _),
    splitOnChar_no_sep '-' (natDigits dt.year) hnoY]

/-- C8: a filename built in the legacy layout, without the kind segment,
from a hyphen-free server name and instance type and a valid four-digit
timestamp, decodes to kind unknown with the original server name,
instance type and minute-precision timestamp. -/
theorem legacy_decode_unknown_kind :
    ∀ (srv inst : List Char) (dt : PyDateTime),
    ¬ '-' ∈ srv → ¬ '-' ∈ inst →
    validStamp dt → 1000 ≤ dt.year →
    parse_backup_name (legacy_backup_name srv inst dt ".zip".data)
      = some ⟨srv, inst, "unknown".data, dt,
          legacy_backup_name srv inst dt ".zip".data⟩ := by
  intro srv inst dt hsrv hinst hv hy
  have hroot : splitextRoot (legacy_backup_name srv inst dt ".zip".data)
      = legacy_body srv inst dt := by
    rw [legacy_backup_name]
    refine splitextRoot_zip _ ⟨'-', ?_, by decide⟩
    rw [legacy_body]
    exact List.mem_append.mpr (Or.inr (List.mem_cons_self _ _))
  have hsplit := splitOnChar_legacy_body srv inst dt hsrv hinst
  simp only [parse_backup_name, hroot, hsplit]
  simp only [List.length_cons, List.length_nil]
  rw [if_neg (by omega)]
  simp only [decide_eq_false (show ¬ (7 : Nat) ≤ 5 + 1 by omega), Bool.false_and,
    Bool.false_eq_true, if_false]
  simp only [show (5 + 1 : Nat) - 4 = 2 from rfl, List.take, List.drop]
  simp only [List.getLast?, Option.getD_some]
  rw [splitOnChar_minute_day dt]
  simp only [strptime_encode dt hv hy]
  simp [joinHyphen_singleton]

/-- C8 witness: a concrete legacy filename decodes to kind unknown with
its original fields. -/
theorem legacy_decode_unknown_kind_witness :
    parse_backup_name (legacy_backup_name "pbx".data "master".data
        ⟨2026, 1, 13, 14, 30⟩ ".zip".data)
      = some ⟨"pbx".data, "master".data, "unknown".data, ⟨2026, 1, 13, 14, 30⟩,
          legacy_backup_name "pbx".data "master".data ⟨2026, 1, 13, 14, 30⟩ ".zip".data⟩ :=
  legacy_decode_unknown_kind "pbx".data "master".data ⟨2026, 1, 13, 14, 30⟩
    (by decide) (by decide) (by constructor <;> simp [daysInMonth, isLeapYear]) (by decide)

/-- Helper: a digit character has code point at most fifty-seven. -/
theorem toNat_le_of_isDigit {c : Char} (h : c.isDigit = true) : c.toNat ≤ 57 := by
  simp only [Char.isDigit, Bool.and_eq_true, decide_eq_true_eq] at h
  exact @UInt32.toNat_le_of_le c.val 57 (by norm_num) h.2

/-- Helper: the value of a digit token is bounded by ten to its length. -/
theorem digitVal_lt_pow : ∀ (s : List Char), (∀ c ∈ s, c.isDigit = true) →
    digitVal s < 10 ^ s.length := by
  intro s
  induction s using List.reverseRecOn with
  | nil => intro _; simp [digitVal]
  | append_singleton xs c ih =>
    intro hall
    have hc : c.toNat ≤ 57 := toNat_le_of_isDigit (hall c (by simp))
    have hxs : digitVal xs < 10 ^ xs.length :=
      ih (fun x hx => hall x (by simp [hx]))
    rw [digitVal_append_single]
    simp only [List.length_append, List.length_cons, List.length_nil]
    rw [pow_succ]
    omega

/-- Helper: an all-digit token is nonempty and made of digits. -/
theorem allDigits_elim {s : List Char} (h : allDigits s = true) :
    ¬ s = [] ∧ ∀ c ∈ s, c.isDigit = true := by
  simp only [allDigits, Bool.and_eq_true, Bool.not_eq_true', List.all_eq_true] at h
  refine ⟨?_, h.2⟩
  intro hnil
  rw [hnil] at h
  simp at h

/-- Helper: trailing-whitespace removal absorbs a whitespace suffix. -/
theorem rdropWs_append_ws {a : List Char} : ∀ {w : List Char},
    (∀ c ∈ w, pyWsChar c = true) → rdropWs (a ++ w) = rdropWs a := by
  intro w
  induction w using List.reverseRecOn with
  | nil => intro _; rw [List.append_nil]
  | append_singleton t c ih =>
    intro hw
    rw [← List.append_assoc, rdropWs,
      List.rdropWhile_concat_pos _ _ c (hw c (by simp))]
    exact ih (fun x hx => hw x (by simp [hx]))

/-- Helper: stripping a nonempty digit token followed by whitespace
recovers the digit token. -/
theorem pyStripChars_digit_ws {a w : List Char} (hne : ¬ a = [])
    (ha : ∀ c ∈ a, c.isDigit = true) (hw : ∀ c ∈ w, pyWsChar c = true) :
    pyStripChars (a ++ w) = a := by
  rw [pyStripChars, List.dropWhile_append, dropWhile_ws_of_digit ha]
  rw [if_neg (by simp [List.isEmpty_iff, hne])]
  rw [rdropWs_append_ws hw, rdropWs_of_digit ha]

/-- Helper: a successful strptime implies every one of the five tokens is
numeric in the int() sense (decimal digits once surrounding whitespace is
stripped) and the decoded timestamp is calendar-valid. -/
theorem strptime_some_inv {y mo d h mi : List Char} {dt : PyDateTime}
    (hp : strptimeYMDHM y mo d h mi = some dt) :
    numericToken y = true ∧ numericToken mo = true ∧ numericToken d = true ∧
      numericToken h = true ∧ numericToken mi = true ∧ validStamp dt := by
  simp only [strptimeYMDHM] at hp
  split_ifs at hp with h1 h2
  · obtain ⟨hy4, hyall, hmoall, hmolen, hmo1, hmo2, hdall, hdlen, hd1, hd2,
      hdrest, hhall, hhlen, hh2, hmiall, hmilen, hmi2⟩ := h1
    have hdt := (Option.some.inj hp).symm
    subst hdt
    have hyALL : ∀ c ∈ y, c.isDigit = true := List.all_eq_true.mp hyall
    have hyne : ¬ y = [] := by intro hnil; rw [hnil] at hy4; simp at hy4
    have hny : numericToken y = true := by
      rw [numericToken, pyStripChars_of_digit hyALL]
      exact allDigits_intro hyne hyALL
    obtain ⟨hmone, hmoALL⟩ := allDigits_elim hmoall
    have hnmo : numericToken mo = true := by
      rw [numericToken, pyStripChars_of_digit hmoALL]
      exact allDigits_intro hmone hmoALL
    obtain ⟨hdne, hdALL⟩ := allDigits_elim hdall
    have hdws : ∀ c ∈ d.dropWhile Char.isDigit, pyWsChar c = true := by
      intro c hc
      exact List.all_eq_true.mp hdrest c hc
    have hnd : numericToken d = true := by
      have hstrip : pyStripChars d = d.takeWhile Char.isDigit := by
        conv_lhs => rw [← List.takeWhile_append_dropWhile Char.isDigit d]
        exact pyStripChars_digit_ws hdne hdALL hdws
      rw [numericToken, hstrip]
      exact allDigits_intro hdne hdALL
    obtain ⟨hhne, hhALL⟩ := allDigits_elim hhall
    have hnh : numericToken h = true := by
      rw [numericToken, pyStripChars, rdropWs_of_digit hhALL]
      exact allDigits_intro hhne hhALL
    obtain ⟨hmine, hmiALL⟩ := allDigits_elim hmiall
    have hnmi : numericToken mi = true := by
      rw [numericToken, pyStripChars_of_digit hmiALL]
      exact allDigits_intro hmine hmiALL
    have hy9999 : digitVal y ≤ 9999 := by
      have hlt := digitVal_lt_pow y hyALL
      rw [hy4] at hlt
      omega
    exact ⟨hny, hnmo, hnd, hnh, hnmi, h2.1, hy9999, hmo1, hmo2, hd1, h2.2, hh2, hmi2⟩

/-- Helper: a successful parse records the input filename and exposes the
four time segments, the underscore split of the minute-day token and the
strptime success that produced the decoded timestamp. -/
theorem parse_backup_name_some_inv {filename : List Char} {m : BackupMeta}
    (hp : parse_backup_name filename = some m) :
    m.filename = filename ∧
    ∃ hh md mo yy mi dd,
      (splitOnChar '-' (splitextRoot filename)).drop
          ((splitOnChar '-' (splitextRoot filename)).length - 4) = [hh, md, mo, yy] ∧
      splitOnChar '_' md = [mi, dd] ∧
      strptimeYMDHM yy mo dd hh mi = some m.dt := by
  obtain ⟨ms, mity, mbt, mdt, mf⟩ := m
  simp only [parse_backup_name] at hp
  by_cases hlen : (splitOnChar '-' (splitextRoot filename)).length < 6
  · rw [if_pos hlen] at hp
    exact absurd hp (by simp)
  · rw [if_neg hlen] at hp
    split at hp
    · rename_i hh md mo yy hdrop
      split at hp
      · rename_i mi dd hmd
        split at hp
        · rename_i dt hstr
          simp only [Option.some.injEq, BackupMeta.mk.injEq] at hp
          obtain ⟨hs, hi, hb, hd, hf⟩ := hp
          subst hd
          subst hf
          exact ⟨rfl, hh, md, mo, yy, mi, dd, hdrop, hmd, hstr⟩
        · exact absurd hp (by simp)
      · exact absurd hp (by simp)
    · exact absurd hp (by simp)

/-- Helper: every entry of the local listing is the successful parse of
its own recorded filename. -/
theorem mem_list_backups_parse {files : List (List Char)} {m : BackupMeta}
    (hm : m ∈ list_backups_local files) :
    parse_backup_name m.filename = some m := by
  rw [list_backups_local] at hm
  have hm2 : m ∈ (files.filter endsWithZip).filterMap parse_backup_name :=
    (List.Perm.mem_iff (List.perm_insertionSort metaDescLe _)).mp hm
  obtain ⟨f, hf, hpf⟩ := List.mem_filterMap.mp hm2
  have hfn : m.filename = f := (parse_backup_name_some_inv hpf).1
  rw [hfn]
  exact hpf

/-- C9: the decoder is total with Option result and fails closed; a
filename with fewer than six hyphen segments decodes to none; a
successful decode certifies that the four trailing segments exist, the
minute-day token splits on its underscore into exactly two fields, all
five time tokens are numeric and the timestamp is calendar-valid (so any
wrong segment count, malformed or non-numeric time token, or invalid
date such as day 32 yields none); and a filename that decodes to none is
excluded from the local listing. -/
theorem decode_fails_closed_and_listing_excludes
    (filename : List Char) (files : List (List Char)) :
    ((splitOnChar '-' (splitextRoot filename)).length < 6 →
        parse_backup_name filename = none) ∧
    (∀ m, parse_backup_name filename = some m →
        ∃ hh md mo yy mi dd,
          (splitOnChar '-' (splitextRoot filename)).drop
              ((splitOnChar '-' (splitextRoot filename)).length - 4) = [hh, md, mo, yy] ∧
          splitOnChar '_' md = [mi, dd] ∧
          numericToken hh = true ∧ numericToken mi = true ∧ numericToken dd = true ∧
          numericToken mo = true ∧ numericToken yy = true ∧
          validStamp m.dt) ∧
    (parse_backup_name filename = none →
        ∀ m ∈ list_backups_local files, ¬ m.filename = filename) := by
  refine ⟨?_, ?_, ?_⟩
  · intro hlen
    simp only [parse_backup_name]
    rw [if_pos hlen]
  · intro m hp
    obtain ⟨hfn, hh, md, mo, yy, mi, dd, hdrop, hmd, hstr⟩ := parse_backup_name_some_inv hp
    obtain ⟨hny, hnmo, hndd, hnhh, hnmi, hvs⟩ := strptime_some_inv hstr
    exact ⟨hh, md, mo, yy, mi, dd, hdrop, hmd, hnhh, hnmi, hndd, hnmo, hny, hvs⟩
  · intro hnone m hm hfeq
    have hps := mem_list_backups_parse hm
    rw [hfeq, hnone] at hps
    exact absurd hps (by simp)

/-- C9 witness: a two-segment filename decodes to none and is excluded
from the listing of a directory containing it. -/
theorem decode_fails_closed_and_listing_excludes_witness :
    parse_backup_name "a-b.zip".data = none ∧
    ∀ m ∈ list_backups_local ["a-b.zip".data], ¬ m.filename = "a-b.zip".data := by
  have h := decode_fails_closed_and_listing_excludes "a-b.zip".data ["a-b.zip".data]
  have hn : parse_backup_name "a-b.zip".data = none := h.1 (by decide)
  exact ⟨hn, h.2.2 hn⟩

end SipwiseBackup
